import Mathlib

/-!
Verification development for the Stratagem turn-resolution engine.

This file gives a shallow embedding, in Lean 4, of the data model and the
operations of the Stratagem game engine (src/types.py, src/game.py,
src/tech.py, server/rankings.py), followed by theorems that settle the
specification claims about it.  Python dataclasses become Lean structures,
Python dicts become association lists kept in insertion order, Python
mutation becomes functional state passing, and Python integers become Int.
Event-log strings, map coordinates used only for rendering, and wall-clock
timestamps are presentation-only and are not modelled.
-/

set_option maxHeartbeats 1000000

namespace Stratagem

/-- Terrain enum, types.py `Terrain`. -/
inductive Terrain where
  | plains | forest | mountain | coast | river
deriving DecidableEq, Repr

/-- Unit type enum, types.py `UnitType`.  The first seven constructors are the
members of the `UnitType` enum in src/types.py.  The last four are the
civ-unique unit variants.  Modelled from the spec: game.py references
`UnitType.SAGE`, `UnitType.HERBALIST`, `UnitType.CORSAIR` and the mapping
`CIV_UNIQUE_UNIT`, which are absent from src/types.py; their stats come from
the `UNIQUE_UNITS` table that src/types.py does contain. -/
inductive UnitType where
  | militia | infantry | archers | cavalry | siege | knights | scout
  | huscarl | herbalist | corsair | sage
deriving DecidableEq, Repr

/-- Building type enum, types.py `BuildingType`. -/
inductive BuildingType where
  | farm | mine | market | barracks | fortress | tradePost | watchtower
deriving DecidableEq, Repr

/-- Tech identifiers, types.py `TechId`. -/
inductive TechId where
  | agriculture | mining | masonry
  | tactics | commerce | fortification
  | blitz | siegeCraft | diplomacyTech
deriving DecidableEq, Repr

/-- Resource triple (food, iron, gold).  In the source, player resources are
the list `[food, iron, gold]` and costs are 3-tuples; both are modelled by
this structure. -/
structure R3 where
  food : Int
  iron : Int
  gold : Int
deriving DecidableEq, Repr

/-- Terrain defense bonus table, types.py `TERRAIN_DEFENSE`. -/
def TERRAIN_DEFENSE : Terrain → Int
  | .plains => 0 | .forest => 1 | .mountain => 3 | .coast => 0 | .river => 1

/-- Terrain base production table, types.py `TERRAIN_RESOURCES`. -/
def TERRAIN_RESOURCES : Terrain → R3
  | .plains   => ⟨3, 0, 1⟩
  | .forest   => ⟨2, 1, 0⟩
  | .mountain => ⟨0, 3, 1⟩
  | .coast    => ⟨2, 0, 2⟩
  | .river    => ⟨2, 1, 1⟩

/-- Unit stats (cost, base strength, speed, minimum age), types.py
`UNIT_STATS`.  Entries for the four unique units are modelled from the
`UNIQUE_UNITS` table in types.py (name, cost, strength, speed, min age). -/
def UNIT_STATS : UnitType → R3 × Int × Int × Int
  | .militia   => (⟨1,0,0⟩, 1, 1, 1)
  | .infantry  => (⟨1,1,0⟩, 3, 1, 1)
  | .archers   => (⟨1,0,1⟩, 2, 1, 2)
  | .cavalry   => (⟨2,1,0⟩, 3, 2, 2)
  | .siege     => (⟨0,2,2⟩, 1, 1, 3)
  | .knights   => (⟨2,2,1⟩, 5, 2, 3)
  | .scout     => (⟨0,0,1⟩, 0, 3, 1)
  | .huscarl   => (⟨1,2,0⟩, 6, 1, 2)
  | .herbalist => (⟨2,0,1⟩, 1, 1, 2)
  | .corsair   => (⟨1,1,1⟩, 3, 2, 2)
  | .sage      => (⟨1,0,2⟩, 1, 1, 2)

/-- Compact unit ordering, types.py `UNIT_ORDER` (the seven base types only). -/
def UNIT_ORDER : List UnitType :=
  [.militia, .infantry, .archers, .cavalry, .siege, .knights, .scout]

/-- Combat triangle bonus, types.py `TRIANGLE` (attacker type, defender type). -/
def TRIANGLE (a d : UnitType) : Int :=
  match a, d with
  | .infantry, .cavalry => 2
  | .archers, .infantry => 2
  | .cavalry, .archers  => 2
  | _, _ => 0

/-- Membership of a unit type in the `TRIANGLE` dict keys, types.py. -/
def inTriangle : UnitType → Bool
  | .infantry | .archers | .cavalry => true
  | _ => false

/-- Terrain combat bonus per unit type, types.py `TERRAIN_UNIT_BONUS`. -/
def TERRAIN_UNIT_BONUS (u : UnitType) (t : Terrain) : Int :=
  match u, t with
  | .cavalry, .plains => 1
  | .archers, .forest => 1
  | _, _ => 0

/-- Membership in the `TERRAIN_UNIT_BONUS` dict keys, types.py. -/
def inTerrainBonus : UnitType → Bool
  | .cavalry | .archers => true
  | _ => false

/-- Building stats (cost, minimum age), types.py `BUILDING_STATS`. -/
def BUILDING_STATS : BuildingType → R3 × Int
  | .farm       => (⟨2,0,0⟩, 1)
  | .mine       => (⟨0,2,0⟩, 1)
  | .market     => (⟨0,0,3⟩, 1)
  | .barracks   => (⟨0,2,0⟩, 1)
  | .fortress   => (⟨0,3,2⟩, 2)
  | .tradePost  => (⟨0,0,2⟩, 2)
  | .watchtower => (⟨0,1,1⟩, 2)

/-- Tech age table, types.py `TECH_AGE`. -/
def TECH_AGE : TechId → Int
  | .agriculture => 1 | .mining => 1 | .masonry => 1
  | .tactics => 2 | .commerce => 2 | .fortification => 2
  | .blitz => 3 | .siegeCraft => 3 | .diplomacyTech => 3

/-- Tech groups by age, types.py `TECH_GROUPS`. -/
def TECH_GROUPS (age : Int) : List TechId :=
  if age = 1 then [.agriculture, .mining, .masonry]
  else if age = 2 then [.tactics, .commerce, .fortification]
  else if age = 3 then [.blitz, .siegeCraft, .diplomacyTech]
  else []

/-- Tech cost table, types.py `TECH_COST`. -/
def TECH_COST : TechId → R3
  | .agriculture => ⟨3,0,2⟩ | .mining => ⟨0,3,2⟩ | .masonry => ⟨2,2,1⟩
  | .tactics => ⟨3,3,2⟩ | .commerce => ⟨2,0,5⟩ | .fortification => ⟨2,4,2⟩
  | .blitz => ⟨5,5,3⟩ | .siegeCraft => ⟨3,6,3⟩ | .diplomacyTech => ⟨3,3,6⟩

/-- Age advancement cost, types.py `AGE_COST` (keys 2 and 3). -/
def AGE_COST (age : Int) : R3 :=
  if age = 2 then ⟨10, 8, 5⟩ else if age = 3 then ⟨15, 12, 10⟩ else ⟨0, 0, 0⟩

/-- Civ to unique unit type mapping.  Modelled from the spec: game.py imports
`CIV_UNIQUE_UNIT` from types.py where it is absent; values follow the
`UNIQUE_UNITS` table of types.py and the civ descriptions in civs.py. -/
def CIV_UNIQUE_UNIT (civ : String) : Option UnitType :=
  if civ = "ironborn" then some .huscarl
  else if civ = "verdanti" then some .herbalist
  else if civ = "tidecallers" then some .corsair
  else if civ = "ashwalkers" then some .sage
  else none

/-- Unit dataclass, types.py `Unit`. -/
structure Unit where
  id : String
  type : UnitType
  owner : String
  province : String
  veteran : Int := 0
deriving DecidableEq, Repr

/-- Base strength property, types.py `Unit.base_strength`. -/
def Unit.baseStrength (u : Unit) : Int := (UNIT_STATS u.type).2.1

/-- Strength property, types.py `Unit.strength`. -/
def Unit.strength (u : Unit) : Int := u.baseStrength + u.veteran

/-- Building dataclass, types.py `Building`. -/
structure Building where
  type : BuildingType
  done : Bool := true
deriving DecidableEq, Repr

/-- Province dataclass, types.py `Province`.  The rendering coordinates
`(x, y)` are not used by any engine operation and are omitted. -/
structure Province where
  id : String
  name : String
  terrain : Terrain
  owner : Option String := none
  units : List Unit := []
  buildings : List Building := []
  adjacent : List String := []
deriving DecidableEq, Repr

/-- Defense bonus property, types.py `Province.defense_bonus`. -/
def Province.defenseBonus (p : Province) : Int :=
  TERRAIN_DEFENSE p.terrain +
    (p.buildings.foldl (fun acc b =>
      if b.type = .fortress ∧ b.done then acc + 3 else acc) 0)

/-- Production method, types.py `Province.production`. -/
def Province.production (p : Province) (techs : List TechId) : R3 :=
  let base := TERRAIN_RESOURCES p.terrain
  let f := base.food + 2 * ((p.buildings.filter (fun b => b.type = .farm ∧ b.done)).length : Int)
  let i := base.iron + 2 * ((p.buildings.filter (fun b => b.type = .mine ∧ b.done)).length : Int)
  let g := base.gold + 2 * ((p.buildings.filter (fun b => b.type = .market ∧ b.done)).length : Int)
  let f := if TechId.agriculture ∈ techs then
      f + ((p.buildings.filter (fun b => b.type = .farm ∧ b.done)).length : Int) else f
  let i := if TechId.mining ∈ techs then
      i + ((p.buildings.filter (fun b => b.type = .mine ∧ b.done)).length : Int) else i
  let g := if TechId.commerce ∈ techs then
      g + 2 * ((p.buildings.filter (fun b => b.type = .market ∧ b.done)).length : Int) else g
  ⟨f, i, g⟩

/-- Has-building method, types.py `Province.has_building`. -/
def Province.hasBuilding (p : Province) (bt : BuildingType) : Bool :=
  p.buildings.any (fun b => b.type = bt ∧ b.done)

/-- Unit counts in `UNIT_ORDER`, types.py `Province.unit_counts`.  Unit types
outside `UNIT_ORDER` (the unique units) are not counted, as in the source. -/
def Province.unitCounts (p : Province) : List Nat :=
  UNIT_ORDER.map (fun t => (p.units.filter (fun u => u.type = t)).length)

/-- Player dataclass, types.py `Player`. -/
structure Player where
  id : String
  name : String
  civ : String := "ironborn"
  age : Int := 1
  resources : R3 := ⟨10, 5, 5⟩
  techs : List TechId := []
  alive : Bool := true
  score : Int := 0
deriving DecidableEq, Repr

/-- Gold accessor, types.py `Player.gold`. -/
def Player.gold (p : Player) : Int := p.resources.gold

/-- Affordability check, types.py `Player.can_afford`. -/
def Player.canAfford (p : Player) (cost : R3) : Bool :=
  cost.food ≤ p.resources.food ∧ cost.iron ≤ p.resources.iron ∧
    cost.gold ≤ p.resources.gold

/-- Payment, types.py `Player.pay`. -/
def Player.pay (p : Player) (cost : R3) : Player :=
  { p with resources := ⟨p.resources.food - cost.food,
      p.resources.iron - cost.iron, p.resources.gold - cost.gold⟩ }

/-- Civ-specific unit cost reduction, types.py `Player.civ_unit_discount`. -/
def Player.civUnitDiscount (p : Player) (cost : R3) : R3 :=
  if p.civ = "ironborn" then ⟨cost.food, max 0 (cost.iron - 1), cost.gold⟩
  else cost

/-- Civ-specific tech cost reduction, types.py `Player.civ_tech_discount`. -/
def Player.civTechDiscount (p : Player) (cost : R3) : R3 :=
  if p.civ = "ashwalkers" then
    ⟨cost.food * 3 / 4, cost.iron * 3 / 4, cost.gold * 3 / 4⟩
  else cost

/-- Research admissibility, tech.py `can_research`. -/
def canResearch (playerAge : Int) (playerTechs : List TechId) (tech : TechId) : Bool :=
  if tech ∈ playerTechs then false
  else if playerAge < TECH_AGE tech then false
  else if (TECH_GROUPS (TECH_AGE tech)).any (fun t => t ∈ playerTechs) then false
  else true

/-- Trade route dataclass, types.py `TradeRoute`. -/
structure TradeRoute where
  id : String
  fromProvince : String
  toProvince : String
  owner : String
  partner : Option String := none
  income : Int := 0
deriving DecidableEq, Repr

/-- Treaty type enum, types.py `TreatyType`. -/
inductive TreatyType where
  | alliance | trade | nonAggression | ceasefire
deriving DecidableEq, Repr

/-- Diplomacy message dataclass, types.py `DiplomacyMessage`. -/
structure DiplomacyMessage where
  sender : String
  recipient : String
  content : String
  turn : Int
  isPublic : Bool := false
deriving DecidableEq, Repr

/-- Treaty proposal dataclass, types.py `TreatyProposal`. -/
structure TreatyProposal where
  id : String
  proposer : String
  target : String
  treatyType : TreatyType
  turnProposed : Int
  accepted : Bool := false
  rejected : Bool := false
deriving DecidableEq, Repr

/-- Treaty dataclass, types.py `Treaty`. -/
structure Treaty where
  id : String
  type : TreatyType
  parties : List String
  turnCreated : Int
  brokenBy : Option String := none
  turnBroken : Option Int := none
deriving DecidableEq, Repr

/-- Active property, types.py `Treaty.active`. -/
def Treaty.active (t : Treaty) : Bool := t.brokenBy = none

/-- Move order, types.py `MoveOrder`. -/
structure MoveOrder where
  unitId : String
  target : String
deriving DecidableEq, Repr

/-- Build-unit order, types.py `BuildUnitOrder`.  `unitType` is a raw string
(a `UnitType` value or "unique"), as in the source. -/
structure BuildUnitOrder where
  unitType : String
  province : String
deriving DecidableEq, Repr

/-- Build-building order, types.py `BuildBuildingOrder`. -/
structure BuildBuildingOrder where
  buildingType : String
  province : String
deriving DecidableEq, Repr

/-- Research order, types.py `ResearchOrder`. -/
structure ResearchOrder where
  tech : String
deriving DecidableEq, Repr

/-- Trade route order, types.py `TradeRouteOrder`. -/
structure TradeRouteOrder where
  fromProvince : String
  toProvince : String
deriving DecidableEq, Repr

/-- Diplomacy order, types.py `DiplomacyOrder`.  Message and proposal dicts
are modelled as pairs: a message is (to, content), a proposal is
(target, type-string). -/
structure DiplomacyOrder where
  messages : List (String × String) := []
  proposals : List (String × String) := []
  acceptTreaties : List String := []
  rejectTreaties : List String := []
  breakTreaties : List String := []
deriving DecidableEq, Repr

/-- Order set, types.py `Orders`. -/
structure Orders where
  playerId : String
  moves : List MoveOrder := []
  buildUnits : List BuildUnitOrder := []
  buildBuildings : List BuildBuildingOrder := []
  research : Option ResearchOrder := none
  tradeRoutes : List TradeRouteOrder := []
  diplomacy : Option DiplomacyOrder := none
deriving DecidableEq, Repr

/-- Combat result dataclass, types.py `CombatResult`.  The `sides` dict is an
association list in first-appearance order. -/
structure CombatResult where
  province : String
  sides : List (String × Int)
  winner : String
  losses : List (String × Nat)
deriving DecidableEq, Repr

/-- Parsing of raw string unit types, types.py `UnitType(build.unit_type)`.
Only the seven base enum values parse; unique units are reached through the
"unique" branch of `process_builds`. -/
def parseUnitType (s : String) : Option UnitType :=
  if s = "militia" then some .militia
  else if s = "infantry" then some .infantry
  else if s = "archers" then some .archers
  else if s = "cavalry" then some .cavalry
  else if s = "siege" then some .siege
  else if s = "knights" then some .knights
  else if s = "scout" then some .scout
  else none

/-- Parsing of raw string building types, game.py `BuildingType(...)`. -/
def parseBuildingType (s : String) : Option BuildingType :=
  if s = "farm" then some .farm
  else if s = "mine" then some .mine
  else if s = "market" then some .market
  else if s = "barracks" then some .barracks
  else if s = "fortress" then some .fortress
  else if s = "trade_post" then some .tradePost
  else if s = "watchtower" then some .watchtower
  else none

/-- Parsing of raw string tech ids, game.py `TechId(r.tech)`. -/
def parseTechId (s : String) : Option TechId :=
  if s = "agr" then some .agriculture
  else if s = "min" then some .mining
  else if s = "mas" then some .masonry
  else if s = "tac" then some .tactics
  else if s = "com" then some .commerce
  else if s = "for" then some .fortification
  else if s = "bli" then some .blitz
  else if s = "sie" then some .siegeCraft
  else if s = "dip" then some .diplomacyTech
  else none

/-- Parsing of raw treaty type strings, game.py `TreatyType(ttype)`. -/
def parseTreatyType (s : String) : Option TreatyType :=
  if s = "alliance" then some .alliance
  else if s = "trade" then some .trade
  else if s = "nap" then some .nonAggression
  else if s = "ceasefire" then some .ceasefire
  else none

/-- Game state, game.py `Game`.  The `provinces` and `players` dicts become
association-order lists (Python dict iteration is insertion order); the
event-string log and the per-turn `history` are not modelled. -/
structure Game where
  provinces : List Province
  players : List Player
  tradeRoutes : List TradeRoute := []
  messages : List DiplomacyMessage := []
  treaties : List Treaty := []
  proposals : List TreatyProposal := []
  trustPenalties : List (String × Nat) := []
  turn : Int := 0
  winner : Option String := none
  maxTurns : Int := 40
  uid : Nat := 0
  treatyUid : Nat := 0
deriving DecidableEq, Repr

/-- Lookup of a province by id, game.py `self.provinces.get(...)`. -/
def Game.getProv (g : Game) (pid : String) : Option Province :=
  g.provinces.find? (fun p => p.id = pid)

/-- Lookup of a player by id, game.py `self.players[pid]`. -/
def Game.getPlayer (g : Game) (pid : String) : Option Player :=
  g.players.find? (fun p => p.id = pid)

/-- Pointwise province replacement by id. -/
def Game.setProv (g : Game) (pid : String) (f : Province → Province) : Game :=
  { g with provinces := g.provinces.map (fun p => if p.id = pid then f p else p) }

/-- Pointwise player replacement by id. -/
def Game.setPlayer (g : Game) (pid : String) (f : Player → Player) : Game :=
  { g with players := g.players.map (fun p => if p.id = pid then f p else p) }

/-- Provinces owned by a player, game.py `Game.player_provinces`. -/
def Game.playerProvinces (g : Game) (pid : String) : List Province :=
  g.provinces.filter (fun p => p.owner = some pid)

/-- Units owned by a player, game.py `Game.player_units`. -/
def Game.playerUnits (g : Game) (pid : String) : List Unit :=
  (g.provinces.map (fun p => p.units.filter (fun u => u.owner = pid))).flatten

/-- Lookup of a unit by id, game.py `Game._find_unit`: scan provinces in
order, units in order, return the first match. -/
def Game.findUnit (g : Game) (uid : String) : Option Unit :=
  (g.provinces.map (fun p => p.units)).flatten.find? (fun u => u.id = uid)

/-- Printable name of a unit type, the Python enum value string. -/
def unitTypeName : UnitType → String
  | .militia => "militia" | .infantry => "infantry" | .archers => "archers"
  | .cavalry => "cavalry" | .siege => "siege" | .knights => "knights"
  | .scout => "scout" | .huscarl => "huscarl" | .herbalist => "herbalist"
  | .corsair => "corsair" | .sage => "sage"

/-- Adjacency of a province id, game.py `self.provinces[node].adjacent`
(a missing id, which would raise KeyError in Python, yields the empty list). -/
def adjacentOf (provs : List Province) (pid : String) : List String :=
  match provs.find? (fun p => p.id = pid) with
  | some p => p.adjacent
  | none => []

/-- One neighbour scan of the BFS distance loop in game.py `Game._bfs_dist`:
returns early with the distance when the goal is found, else the extended
queue and visited set. -/
def bfsScan (b : String) (d : Nat) :
    List String → List (String × Nat) → List String →
      Option Nat × List (String × Nat) × List String
  | [], queue, visited => (none, queue, visited)
  | nb :: nbs, queue, visited =>
      if nb = b then (some (d + 1), queue, visited)
      else if nb ∈ visited then bfsScan b d nbs queue visited
      else bfsScan b d nbs (queue ++ [(nb, d + 1)]) (visited ++ [nb])

/-- Fuelled main loop of game.py `Game._bfs_dist`.  The fuel bound passed by
`Game.bfsDist` exceeds the number of possible queue pops, so the fuel-out
branch is unreachable for that caller. -/
def bfsDistAux (provs : List Province) (b : String) :
    Nat → List (String × Nat) → List String → Int
  | 0, _, _ => -1
  | _ + 1, [], _ => -1
  | fuel + 1, (node, d) :: rest, visited =>
      match bfsScan b d (adjacentOf provs node) rest visited with
      | (some r, _, _) => (r : Int)
      | (none, queue, vis) => bfsDistAux provs b fuel queue vis

/-- BFS shortest-path edge count, game.py `Game._bfs_dist` (-1 when there is
no path). -/
def Game.bfsDist (g : Game) (a b : String) : Int :=
  if a = b then 0
  else
    let fuel := 1 + g.provinces.length + (g.provinces.map (fun p => p.adjacent.length)).sum
    bfsDistAux g.provinces b fuel [(a, 0)] [a]

/-- One neighbour scan of the BFS path loop in game.py `Game._bfs_path`. -/
def bfsScanP (b : String) (path : List String) :
    List String → List (String × List String) → List String →
      Option (List String) × List (String × List String) × List String
  | [], queue, visited => (none, queue, visited)
  | nb :: nbs, queue, visited =>
      if nb = b then (some (path ++ [b]), queue, visited)
      else if nb ∈ visited then bfsScanP b path nbs queue visited
      else bfsScanP b path nbs (queue ++ [(nb, path ++ [nb])]) (visited ++ [nb])

/-- Fuelled main loop of game.py `Game._bfs_path`. -/
def bfsPathAux (provs : List Province) (b : String) :
    Nat → List (String × List String) → List String → List String
  | 0, _, _ => []
  | _ + 1, [], _ => []
  | fuel + 1, (node, path) :: rest, visited =>
      match bfsScanP b path (adjacentOf provs node) rest visited with
      | (some p, _, _) => p
      | (none, queue, vis) => bfsPathAux provs b fuel queue vis

/-- BFS shortest path as a province id list, game.py `Game._bfs_path`
(empty when there is no path). -/
def Game.bfsPath (g : Game) (a b : String) : List String :=
  if a = b then [a]
  else
    let fuel := 1 + g.provinces.length + (g.provinces.map (fun p => p.adjacent.length)).sum
    bfsPathAux g.provinces b fuel [(a, [a])] [a]

/-- Units present in a province id (empty when the id is unknown). -/
def Game.unitsAt (g : Game) (pid : String) : List Unit :=
  match g.getProv pid with
  | some p => p.units
  | none => []

/-- Raid check, game.py `Game._is_route_raided`: some intermediate province
of the BFS path holds a unit whose owner is neither `pid` (the collecting
side) nor the route partner. -/
def Game.isRouteRaided (g : Game) (tr : TradeRoute) (pid : String) : Bool :=
  (((g.bfsPath tr.fromProvince tr.toProvince).drop 1).dropLast).any
    (fun q => (g.unitsAt q).any
      (fun u => u.owner ≠ pid ∧ some u.owner ≠ tr.partner))

/-- Route base income after the raid halving, the `base_income` value of
game.py `Game._calc_trade_income` lines 104-108, before civ and sharing
adjustments. -/
def Game.routeBase (g : Game) (tr : TradeRoute) (pid : String) : Int :=
  let dist := g.bfsDist tr.fromProvince tr.toProvince
  if g.isRouteRaided tr pid then dist / 2 else dist

/-- Income of one route for one collecting side, the loop body of game.py
`Game._calc_trade_income` (none when the loop continues without counting
the route). -/
def routeIncomeFor (g : Game) (pid : String) (tr : TradeRoute) : Option Int :=
  if tr.owner ≠ pid ∧ tr.partner ≠ some pid then none
  else
    let dist := g.bfsDist tr.fromProvince tr.toProvince
    if dist ≤ 0 then none
    else
      let base := g.routeBase tr pid
      let base :=
        match g.getPlayer pid with
        | some player => if player.civ = "tidecallers" then base * 3 / 2 else base
        | none => base
      let base :=
        match tr.partner with
        | some pt =>
            if pt ≠ "" ∧ pt ≠ tr.owner then
              let b2 := base * 2
              if pid = tr.owner ∨ tr.partner = some pid then b2 / 2 else b2
            else base
        | none => base
      some base

/-- Trade income for a player, game.py `Game._calc_trade_income`: the total
and the route list with its per-route `income` fields updated. -/
def Game.calcTradeIncome (g : Game) (pid : String) : Int × List TradeRoute :=
  g.tradeRoutes.foldl
    (fun (acc : Int × List TradeRoute) tr =>
      match routeIncomeFor g pid tr with
      | none => (acc.1, acc.2 ++ [tr])
      | some inc => (acc.1 + inc, acc.2 ++ [{ tr with income := inc }]))
    (0, [])

/-- Resource collection for one player, the loop body of game.py
`Game.collect_resources`. -/
def collectFor (s : Game) (pid : String) : Game :=
  match s.getPlayer pid with
  | none => s
  | some player =>
    if ¬ player.alive then s
    else
      let inc : R3 := (s.playerProvinces pid).foldl
        (fun acc prov =>
          let pr := prov.production player.techs
          let f := if player.civ = "verdanti" then pr.food + 1 else pr.food
          let fig : R3 := prov.units.foldl
            (fun (r : R3) u =>
              if u.owner = pid then
                if u.type = .sage then ⟨r.food + 1, r.iron + 1, r.gold + 1⟩
                else if u.type = .herbalist then ⟨r.food + 2, r.iron, r.gold⟩
                else r
              else r)
            ⟨f, pr.iron, pr.gold⟩
          ⟨acc.food + fig.food, acc.iron + fig.iron, acc.gold + fig.gold⟩)
        ⟨0, 0, 0⟩
      let upkeep : Int :=
        (((s.playerUnits pid).filter
          (fun u => u.type ≠ .militia ∧ u.type ≠ .scout)).length : Int)
      let (tradeGold, routes) := s.calcTradeIncome pid
      let inc : R3 := ⟨inc.food - upkeep, inc.iron, inc.gold + tradeGold⟩
      let s := { s with tradeRoutes := routes }
      s.setPlayer pid (fun p =>
        { p with resources :=
            ⟨max 0 (p.resources.food + inc.food),
             max 0 (p.resources.iron + inc.iron),
             max 0 (p.resources.gold + inc.gold)⟩ })

/-- Resource collection, game.py `Game.collect_resources` (the returned
per-player income dict is not used by any claim and is dropped). -/
def Game.collectResources (g : Game) : Game :=
  (g.players.map (fun p => p.id)).foldl collectFor g

/-- One step of grouping units by owner, game.py `_resolve_combat`
`owners.setdefault(u.owner, []).append(u)`. -/
def groupStep (acc : List (String × List Unit)) (u : Unit) : List (String × List Unit) :=
  if acc.any (fun kv => kv.1 = u.owner) then
    acc.map (fun kv => if kv.1 = u.owner then (kv.1, kv.2 ++ [u]) else kv)
  else acc ++ [(u.owner, [u])]

/-- Grouping of a province's units by owner in first-appearance order,
game.py `_resolve_combat` lines 192-194. -/
def groupOwners (units : List Unit) : List (String × List Unit) :=
  units.foldl groupStep []

/-- Distinct enemy unit types present, game.py `_resolve_combat`
lines 209-212 (a Python set of types; collected in first-appearance order,
the order is irrelevant because only the bonus sum is used). -/
def enemyTypes (owners : List (String × List Unit)) (pid : String) : List UnitType :=
  owners.foldl
    (fun acc kv =>
      if kv.1 = pid then acc
      else kv.2.foldl (fun a u => if u.type ∈ a then a else a ++ [u.type]) acc)
    []

/-- Effective strength of one unit, game.py `_resolve_combat` lines 203-222. -/
def unitEffStrength (player : Player) (prov : Province) (ets : List UnitType)
    (u : Unit) : Int :=
  let us := u.strength
  let us := if TechId.tactics ∈ player.techs then us + 1 else us
  let us := if inTriangle u.type then
      ets.foldl (fun a et => a + TRIANGLE u.type et) us else us
  if inTerrainBonus u.type then us + TERRAIN_UNIT_BONUS u.type prov.terrain else us

/-- Effective strength of one side, game.py `_resolve_combat` lines 200-232.
Python accumulates in a float; every contribution is integral, so Int is
exact.  A `pid` missing from the player dict would raise KeyError in Python
and here falls back to a default player. -/
def sideStrength (players : List Player) (prov : Province)
    (owners : List (String × List Unit)) (pid : String) (us : List Unit) : Int :=
  let player := (players.find? (fun p => p.id = pid)).getD
    { id := pid, name := pid }
  let ets := enemyTypes owners pid
  let s := us.foldl (fun a u => a + unitEffStrength player prov ets u) 0
  let s := if prov.owner = some pid then
      s + prov.defenseBonus + (if TechId.fortification ∈ player.techs then 1 else 0)
    else s
  if prov.terrain = .river ∧ prov.owner ≠ some pid then
    max (s - (us.length : Int)) 0
  else s

/-- Strict ordering on (pid, strength) pairs realizing the sort key
`(-strength, pid is not the province owner, pid)` of game.py
`_resolve_combat` lines 235-236. -/
def winnerKeyLt (ow : Option String) (a b : String × Int) : Bool :=
  if a.2 ≠ b.2 then b.2 < a.2
  else if (ow = some a.1) ≠ (ow = some b.1) then ow = some a.1
  else a.1 < b.1

/-- Winner selection: the first element of the sorted side list, i.e. the
minimum under `winnerKeyLt` (the key is injective because side ids are
distinct, so stability of the Python sort does not matter). -/
def pickWinner (strengths : List (String × Int)) (ow : Option String) : String :=
  match strengths with
  | [] => ""
  | x :: xs => (xs.foldl (fun best y => if winnerKeyLt ow y best then y else best) x).1

/-- Stable insertion for the ascending-strength sort of winner units,
game.py `_resolve_combat` lines 249-250. -/
def insertByStrength (u : Unit) : List Unit → List Unit
  | [] => [u]
  | v :: vs =>
      if u.strength ≤ v.strength then u :: v :: vs
      else v :: insertByStrength u vs

/-- Stable sort by ascending strength (Python `sorted` is stable). -/
def sortByStrength : List Unit → List Unit
  | [] => []
  | u :: us => insertByStrength u (sortByStrength us)

/-- Removal of the first structurally equal list element, Python
`list.remove`. -/
def removeFirst (us : List Unit) (u : Unit) : List Unit :=
  match us with
  | [] => []
  | v :: vs => if v = u then vs else v :: removeFirst vs u

/-- Gold credit to one player by id, game.py `_resolve_combat` line 265
`self.players[winner].resources[2] += gold_gain`. -/
def addGoldTo (pid : String) (gain : Int) (players : List Player) : List Player :=
  players.map (fun p =>
    if p.id = pid then
      { p with resources := { p.resources with gold := p.resources.gold + gain } }
    else p)

/-- One loser-side removal step of game.py `_resolve_combat` lines 241-244:
every unit of a losing owner leaves the province. -/
def loserRemovalStep (winner : String) (us : List Unit) (pid : String) : List Unit :=
  if pid ≠ winner then us.filter (fun u => u.owner ≠ pid) else us

/-- Veterancy bump of game.py `_resolve_combat` lines 256-258. -/
def veteranBump (winner : String) (u : Unit) : Unit :=
  if u.owner = winner ∧ u.veteran < 2 then { u with veteran := u.veteran + 1 } else u

/-- Combat resolution at one province, game.py `Game._resolve_combat`.
Returns none when fewer than two sides are present, else the resolved
province, the updated player list and the combat record. -/
def resolveCombat (players : List Player) (prov : Province) :
    Option (Province × List Player × CombatResult) :=
  let owners := groupOwners prov.units
  if owners.length < 2 then none
  else
    let strengths := owners.map
      (fun kv => (kv.1, sideStrength players prov owners kv.1 kv.2))
    let winner := pickWinner strengths prov.owner
    let losses : List (String × Nat) :=
      (owners.filter (fun kv => kv.1 ≠ winner)).map (fun kv => (kv.1, kv.2.length))
    let units1 := (owners.map Prod.fst).foldl (loserRemovalStep winner) prov.units
    let loserStr := (strengths.filter (fun kv => kv.1 ≠ winner)).foldl
      (fun a kv => a + kv.2) 0
    let wc := (Int.fdiv loserStr 4).toNat
    let winnerUnits := sortByStrength (units1.filter (fun u => u.owner = winner))
    let wcEff := min wc (winnerUnits.length - 1)
    let units2 := (winnerUnits.take wcEff).foldl removeFirst units1
    let losses := if 0 < wcEff then losses ++ [(winner, wcEff)] else losses
    let units3 := units2.map (veteranBump winner)
    let winnerCorsairs :=
      (units3.filter (fun u => u.owner = winner ∧ u.type = .corsair)).length
    let totalKilled : Nat :=
      (losses.filter (fun kv => kv.1 ≠ winner)).foldl (fun a kv => a + kv.2) 0
    let players1 :=
      if 0 < winnerCorsairs then addGoldTo winner (2 * (totalKilled : Int)) players
      else players
    some ({ prov with units := units3, owner := some winner }, players1,
      { province := prov.id, sides := strengths, winner := winner, losses := losses })

/-- Application of one move order, game.py `Game.process_moves` lines
168-179: silently dropped unless the unit exists, belongs to the submitter,
and its current province is adjacent to the target. -/
def applyMove (g : Game) (pid : String) (mv : MoveOrder) : Game :=
  match g.findUnit mv.unitId with
  | none => g
  | some u =>
    if u.owner ≠ pid then g
    else
      match g.getProv u.province, g.getProv mv.target with
      | some src, some dst =>
        if dst.id ∈ src.adjacent then
          let u1 := { u with province := dst.id }
          { g with provinces := g.provinces.map (fun p =>
              let us := if p.id = src.id then removeFirst p.units u else p.units
              if p.id = dst.id then { p with units := us ++ [u1] }
              else { p with units := us }) }
        else g
      | _, _ => g

/-- Application of one player's move orders in submission order. -/
def applyPlayerMoves (g : Game) (pid : String) (moves : List MoveOrder) : Game :=
  moves.foldl (fun s mv => applyMove s pid mv) g

/-- Movement application over all submitted order sets, game.py
`Game.process_moves` lines 165-179 (the fetched `player` variable is unused
in the source and eliminated players' moves are not filtered). -/
def applyAllMoves (g : Game) (orders : List (String × Orders)) : Game :=
  orders.foldl (fun s kv => applyPlayerMoves s kv.1 kv.2.moves) g

/-- Combat detection and resolution sweep, game.py `Game.process_moves`
lines 181-189 (provinces are visited in map order; `resolveCombat` itself
returns none for single-owner provinces). -/
def resolveAllCombats (g : Game) : Game × List CombatResult :=
  (g.provinces.map (fun p => p.id)).foldl
    (fun (acc : Game × List CombatResult) pid =>
      match acc.1.getProv pid with
      | none => acc
      | some prov =>
        match resolveCombat acc.1.players prov with
        | none => acc
        | some (prov1, players1, res) =>
          ({ acc.1 with
              provinces := acc.1.provinces.map (fun p => if p.id = pid then prov1 else p),
              players := players1 },
            acc.2 ++ [res]))
    (g, [])

/-- Movement and combat phase, game.py `Game.process_moves`. -/
def Game.processMoves (g : Game) (orders : List (String × Orders)) :
    Game × List CombatResult :=
  resolveAllCombats (applyAllMoves g orders)

/-- One build-unit order, game.py `Game.process_builds` lines 284-323. -/
def buildUnitStep (s : Game) (pid : String) (b : BuildUnitOrder) : Game :=
  match s.getPlayer pid, s.getProv b.province with
  | some player, some prov =>
    if prov.owner ≠ some pid then s
    else if b.unitType = "unique" then
      match CIV_UNIQUE_UNIT player.civ with
      | none => s
      | some utype =>
        let stats := UNIT_STATS utype
        if player.age < stats.2.2.2 then s
        else
          let cost := player.civUnitDiscount stats.1
          if ¬ player.canAfford cost then s
          else
            let s1 := { (s.setPlayer pid (fun p => p.pay cost)) with uid := s.uid + 1 }
            let uidStr := pid ++ "_" ++ unitTypeName utype ++ "_" ++ toString s1.uid
            s1.setProv prov.id (fun pr =>
              { pr with units := pr.units ++
                  [{ id := uidStr, type := utype, owner := pid, province := pr.id }] })
    else
      match parseUnitType b.unitType with
      | none => s
      | some utype =>
        let stats := UNIT_STATS utype
        if player.age < stats.2.2.2 then s
        else
          let cost := player.civUnitDiscount stats.1
          let cost := if prov.hasBuilding .barracks then
              ⟨max 0 (cost.food - 1), cost.iron, cost.gold⟩ else cost
          if ¬ player.canAfford cost then s
          else
            let s1 := { (s.setPlayer pid (fun p => p.pay cost)) with uid := s.uid + 1 }
            let uidStr := pid ++ "_" ++ unitTypeName utype ++ "_" ++ toString s1.uid
            s1.setProv prov.id (fun pr =>
              { pr with units := pr.units ++
                  [{ id := uidStr, type := utype, owner := pid, province := pr.id }] })
  | _, _ => s

/-- One build-building order, game.py `Game.process_builds` lines 326-345. -/
def buildBuildingStep (s : Game) (pid : String) (b : BuildBuildingOrder) : Game :=
  match s.getPlayer pid, s.getProv b.province with
  | some player, some prov =>
    if prov.owner ≠ some pid then s
    else
      match parseBuildingType b.buildingType with
      | none => s
      | some btype =>
        let bstats := BUILDING_STATS btype
        if player.age < bstats.2 then s
        else if prov.hasBuilding btype then s
        else if ¬ player.canAfford bstats.1 then s
        else
          (s.setPlayer pid (fun p => p.pay bstats.1)).setProv prov.id (fun pr =>
            { pr with buildings := pr.buildings ++ [{ type := btype, done := true }] })
  | _, _ => s

/-- Build phase for one player, game.py `Game.process_builds` loop body. -/
def processBuildsFor (s : Game) (pid : String) (o : Orders) : Game :=
  match s.getPlayer pid with
  | none => s
  | some player =>
    if ¬ player.alive then s
    else
      let s := o.buildUnits.foldl (fun t bu => buildUnitStep t pid bu) s
      o.buildBuildings.foldl (fun t bb => buildBuildingStep t pid bb) s

/-- Build phase, game.py `Game.process_builds`. -/
def Game.processBuilds (g : Game) (orders : List (String × Orders)) : Game :=
  orders.foldl (fun s kv => processBuildsFor s kv.1 kv.2) g

/-- Research phase for one player, game.py `Game.process_research` loop
body. -/
def processResearchFor (s : Game) (pid : String) (o : Orders) : Game :=
  match s.getPlayer pid, o.research with
  | some player, some r =>
    if ¬ player.alive then s
    else if r.tech = "age_up" then
      let nextAge := player.age + 1
      if 3 < nextAge then s
      else
        let cost := player.civTechDiscount (AGE_COST nextAge)
        if ¬ player.canAfford cost then s
        else s.setPlayer pid (fun p => { p.pay cost with age := nextAge })
    else
      match parseTechId r.tech with
      | none => s
      | some tech =>
        if ¬ canResearch player.age player.techs tech then s
        else
          let cost := player.civTechDiscount (TECH_COST tech)
          if ¬ player.canAfford cost then s
          else s.setPlayer pid (fun p => { p.pay cost with techs := p.techs ++ [tech] })
  | _, _ => s

/-- Research and age-up phase, game.py `Game.process_research`. -/
def Game.processResearch (g : Game) (orders : List (String × Orders)) : Game :=
  orders.foldl (fun s kv => processResearchFor s kv.1 kv.2) g

/-- One trade-route order, game.py `Game.process_trade_routes` loop body. -/
def tradeRouteStep (s : Game) (pid : String) (o : TradeRouteOrder) : Game :=
  match s.getProv o.fromProvince, s.getProv o.toProvince with
  | some fp, some tp =>
    if fp.owner ≠ some pid then s
    else if ¬ fp.hasBuilding .tradePost then s
    else if ¬ tp.hasBuilding .tradePost then s
    else if s.tradeRoutes.any (fun r => r.fromProvince = fp.id ∧ r.toProvince = tp.id) then s
    else
      { s with tradeRoutes := s.tradeRoutes ++
          [{ id := "tr_" ++ fp.id ++ "_" ++ tp.id,
             fromProvince := fp.id, toProvince := tp.id, owner := pid,
             partner := if tp.owner ≠ some pid then tp.owner else none }] }
  | _, _ => s

/-- Trade route phase, game.py `Game.process_trade_routes`. -/
def Game.processTradeRoutes (g : Game) (orders : List (String × Orders)) : Game :=
  orders.foldl
    (fun s kv =>
      match s.getPlayer kv.1 with
      | none => s
      | some player =>
        if ¬ player.alive then s
        else kv.2.tradeRoutes.foldl (fun t o => tradeRouteStep t kv.1 o) s)
    g

/-- Trust penalty increment, game.py `self.trust_penalties[pid] = ... + 1`. -/
def bumpTrust (l : List (String × Nat)) (pid : String) : List (String × Nat) :=
  if l.any (fun kv => kv.1 = pid) then
    l.map (fun kv => if kv.1 = pid then (kv.1, kv.2 + 1) else kv)
  else l ++ [(pid, 1)]

/-- Accept scan over the proposal list, game.py `Game.process_diplomacy`
lines 495-507: each proposal matching the id, targeted at the acting player
and not already terminal is marked accepted and spawns a treaty. -/
def acceptScan (t : Game) (pid tpId : String) : Game :=
  (List.range t.proposals.length).foldl
    (fun s i =>
      match s.proposals[i]? with
      | none => s
      | some tp =>
        if tp.id = tpId ∧ tp.target = pid ∧ ¬ tp.accepted ∧ ¬ tp.rejected then
          let s1 := { s with proposals := s.proposals.set i { tp with accepted := true },
                             treatyUid := s.treatyUid + 1 }
          { s1 with treaties := s1.treaties ++
              [{ id := "t_" ++ toString s1.treatyUid, type := tp.treatyType,
                 parties := [tp.proposer, tp.target], turnCreated := s1.turn }] }
        else s)
    t

/-- Reject scan over the proposal list, game.py `Game.process_diplomacy`
lines 510-513: the guard checks only the id and the target, not whether the
proposal is already terminal. -/
def rejectScan (t : Game) (pid tpId : String) : Game :=
  (List.range t.proposals.length).foldl
    (fun s i =>
      match s.proposals[i]? with
      | none => s
      | some tp =>
        if tp.id = tpId ∧ tp.target = pid then
          { s with proposals := s.proposals.set i { tp with rejected := true } }
        else s)
    t

/-- Break scan over the treaty list, game.py `Game.process_diplomacy`
lines 516-522. -/
def breakScan (t : Game) (pid tId : String) : Game :=
  (List.range t.treaties.length).foldl
    (fun s i =>
      match s.treaties[i]? with
      | none => s
      | some tr =>
        if tr.id = tId ∧ pid ∈ tr.parties ∧ tr.active then
          { s with
              treaties := s.treaties.set i
                { tr with brokenBy := some pid, turnBroken := some s.turn },
              trustPenalties := bumpTrust s.trustPenalties pid }
        else s)
    t

/-- Diplomacy phase for one player, game.py `Game.process_diplomacy` loop
body.  A proposal dict with an invalid treaty-type string would raise in
Python; it is skipped here. -/
def diplomacyFor (s : Game) (pid : String) (d : DiplomacyOrder) : Game :=
  let s := d.messages.foldl
    (fun t m =>
      { t with messages := t.messages ++
          [{ sender := pid, recipient := m.1, content := m.2, turn := t.turn,
             isPublic := m.1 = "public" }] })
    s
  let s := d.proposals.foldl
    (fun t pr =>
      if ¬ (t.players.any (fun p => p.id = pr.1)) ∨ pr.1 = pid then t
      else
        match parseTreatyType pr.2 with
        | none => t
        | some tt =>
          let t1 := { t with treatyUid := t.treatyUid + 1 }
          { t1 with proposals := t1.proposals ++
              [{ id := "tp_" ++ toString t1.treatyUid, proposer := pid, target := pr.1,
                 treatyType := tt, turnProposed := t1.turn }] })
    s
  let s := d.acceptTreaties.foldl (fun t tpId => acceptScan t pid tpId) s
  let s := d.rejectTreaties.foldl (fun t tpId => rejectScan t pid tpId) s
  d.breakTreaties.foldl (fun t tId => breakScan t pid tId) s

/-- Diplomacy phase, game.py `Game.process_diplomacy` (no aliveness check
in the source). -/
def Game.processDiplomacy (g : Game) (orders : List (String × Orders)) : Game :=
  orders.foldl
    (fun s kv =>
      match kv.2.diplomacy with
      | none => s
      | some d => diplomacyFor s kv.1 d)
    g

/-- Elimination check, game.py `Game.check_eliminations`: a living player
with no provinces and no units is marked dead. -/
def Game.checkEliminations (g : Game) : Game × List String :=
  (g.players.map (fun p => p.id)).foldl
    (fun (acc : Game × List String) pid =>
      match acc.1.getPlayer pid with
      | none => acc
      | some player =>
        if ¬ player.alive then acc
        else if (acc.1.playerProvinces pid).isEmpty ∧ (acc.1.playerUnits pid).isEmpty then
          (acc.1.setPlayer pid (fun p => { p with alive := false }), acc.2 ++ [pid])
        else acc)
    (g, [])

/-- First maximal element by score, Python `max(alive, key=lambda p: p.score)`:
`max` keeps the earliest element among equal keys. -/
def pickFold (a : Player) (as : List Player) : Player :=
  as.foldl (fun best q => if best.score < q.score then q else best) a

/-- Winner id at the turn limit: Python `max(alive, key=score).id`; the
empty case, on which Python would raise, yields no winner. -/
def firstMaxId : List Player → Option String
  | [] => none
  | p :: ps => some (pickFold p ps).id

/-- Final score at the turn limit, game.py `Game.check_victory` line 453. -/
def Game.victoryScore (g : Game) (p : Player) : Int :=
  ((g.playerProvinces p.id).length : Int) * 3 + ((g.playerUnits p.id).length : Int)
    + Int.fdiv p.gold 5 + (p.techs.length : Int) * 5 + p.age * 10

/-- Victory check, game.py `Game.check_victory`.  Branch 4 writes the score
of every alive player before taking the maximum; Python `max` over an empty
sequence raises and is modelled as no winner. -/
def Game.checkVictory (g : Game) : Game × Option String :=
  let alive := g.players.filter (fun p => p.alive)
  if alive.length = 1 then (g, alive.head?.map (fun p => p.id))
  else
    match alive.find? (fun p => 15 ≤ (g.playerProvinces p.id).length) with
    | some p => (g, some p.id)
    | none =>
      match alive.find? (fun p =>
          100 ≤ p.gold ∧ g.provinces.any (fun pr => pr.owner = some p.id)) with
      | some p => (g, some p.id)
      | none =>
        if g.maxTurns ≤ g.turn then
          let g1 : Game := { g with players := g.players.map (fun p =>
            if p.alive then { p with score := g.victoryScore p } else p) }
          let alive1 : List Player := g1.players.filter (fun p => p.alive)
          (g1, firstMaxId alive1)
        else (g, none)

/-- Full turn resolution, game.py `Game.process_turn`: increment the turn
counter, then diplomacy, research, moves and combat, builds, trade routes,
resource collection, eliminations and the victory check, in this order. -/
def Game.processTurn (g : Game) (orders : List (String × Orders)) : Game :=
  let g := { g with turn := g.turn + 1 }
  let g := g.processDiplomacy orders
  let g := g.processResearch orders
  let g := (g.processMoves orders).1
  let g := g.processBuilds orders
  let g := g.processTradeRoutes orders
  let g := g.collectResources
  let g := (g.checkEliminations).1
  let gw := g.checkVictory
  match gw.2 with
  | some wid => { gw.1 with winner := some wid }
  | none => gw.1

/-- Terrain short codes, types.py `TERRAIN_SHORT`. -/
def TERRAIN_SHORT : Terrain → String
  | .plains => "P" | .forest => "F" | .mountain => "M" | .coast => "C" | .river => "R"

/-- Building short codes, types.py `BUILDING_SHORT`. -/
def BUILDING_SHORT : BuildingType → String
  | .farm => "F" | .mine => "M" | .market => "K" | .barracks => "B"
  | .fortress => "X" | .tradePost => "T" | .watchtower => "W"

/-- Tech value strings, types.py `TechId` values. -/
def techName : TechId → String
  | .agriculture => "agr" | .mining => "min" | .masonry => "mas"
  | .tactics => "tac" | .commerce => "com" | .fortification => "for"
  | .blitz => "bli" | .siegeCraft => "sie" | .diplomacyTech => "dip"

/-- Treaty type value strings, types.py `TreatyType` values. -/
def treatyTypeName : TreatyType → String
  | .alliance => "alliance" | .trade => "trade" | .nonAggression => "nap"
  | .ceasefire => "ceasefire"

/-- Ids of the provinces owned by a player, game.py `get_player_view`
`owned_ids`. -/
def Game.ownedIds (g : Game) (pid : String) : List String :=
  (g.playerProvinces pid).map (fun p => p.id)

/-- Visibility predicate of game.py `get_player_view` lines 612-619, as a
function of the owned province list and the adjacency lookup: a province is
visible when owned, adjacent to an owned province, or two steps from an
owned province holding a completed watchtower. -/
def visibleOf (adjOf : String → List String) (owned : List Province) (q : String) : Bool :=
  owned.any (fun p => p.id = q)
  || owned.any (fun p => q ∈ p.adjacent)
  || owned.any (fun p => p.hasBuilding .watchtower ∧ p.adjacent.any (fun a => q ∈ adjOf a))

/-- Visibility of a province id for a player. -/
def Game.isVisible (g : Game) (pid : String) (q : String) : Bool :=
  visibleOf (adjacentOf g.provinces) (g.playerProvinces pid) q

/-- One `pv` entry of the player view, game.py `get_player_view` lines
621-640: full detail for owned provinces, otherwise terrain, owner,
adjacency and (when positive) a bare unit count. -/
structure ProvEntry where
  tr : String
  o : String
  adj : List String
  u : Option (List Nat) := none
  b : Option (List String) := none
  pr : Option R3 := none
  uc : Option Nat := none
deriving DecidableEq, Repr

/-- Construction of one `pv` entry for a given province. -/
def provEntry (g : Game) (pid : String) (player : Player) (prov : Province) : ProvEntry :=
  let base : ProvEntry :=
    { tr := TERRAIN_SHORT prov.terrain,
      o := match prov.owner with | some o => o | none => "-",
      adj := prov.adjacent }
  if prov.id ∈ g.ownedIds pid then
    { base with
        u := some prov.unitCounts,
        b := some ((prov.buildings.filter (fun b => b.done)).map
          (fun b => BUILDING_SHORT b.type)),
        pr := some (prov.production player.techs) }
  else if 0 < prov.units.length then { base with uc := some prov.units.length }
  else base

/-- One entry of the per-player unit list, game.py
`Game.get_player_units_list`. -/
structure UnitEntry where
  id : String
  type : String
  province : String
  strength : Int
  veteran : Int
deriving DecidableEq, Repr

/-- Per-player unit list, game.py `Game.get_player_units_list`. -/
def Game.getPlayerUnitsList (g : Game) (pid : String) : List UnitEntry :=
  (g.provinces.map (fun prov =>
    (prov.units.filter (fun u => u.owner = pid)).map
      (fun u => ({ id := u.id, type := unitTypeName u.type, province := prov.id,
                   strength := u.strength, veteran := u.veteran } : UnitEntry)))).flatten

/-- Diplomacy info visible to a player, game.py
`Game.get_diplomacy_for_player`.  Messages are (from, to, content, public)
tuples, pending proposals (id, from, type), treaties (id, type, with,
since). -/
structure DiploView where
  messages : List (String × String × String × Bool)
  pendingProposals : List (String × String × String)
  treaties : List (String × String × String × Int)
  trust : List (String × Nat)
deriving DecidableEq, Repr

/-- Construction of the per-player diplomacy view. -/
def Game.getDiplomacyForPlayer (g : Game) (pid : String) : DiploView :=
  { messages := (g.messages.filter (fun m =>
        m.turn = g.turn ∧ (m.isPublic ∨ m.recipient = pid ∨ m.sender = pid))).map
      (fun m => (m.sender, m.recipient, m.content, m.isPublic)),
    pendingProposals := (g.proposals.filter (fun p =>
        p.target = pid ∧ ¬ p.accepted ∧ ¬ p.rejected)).map
      (fun p => (p.id, p.proposer, treatyTypeName p.treatyType)),
    treaties := (g.treaties.filter (fun t => pid ∈ t.parties ∧ t.active)).map
      (fun t => (t.id, treatyTypeName t.type,
        (t.parties.filter (fun q => q ≠ pid)).headD "", t.turnCreated)),
    trust := g.players.map (fun p2 =>
      (p2.id, ((g.trustPenalties.find? (fun kv => kv.1 = p2.id)).map Prod.snd).getD 0)) }

/-- The complete per-player state projection, game.py
`Game.get_player_view`.  Python iterates the `visible` set in unspecified
set order; here `pv` and `fog` follow the province map order, which carries
the same information. -/
structure PlayerView where
  t : Int
  p : String
  c : String
  a : Int
  r : R3
  tc : List String
  pv : List (String × ProvEntry)
  fog : List String
  tr : List (String × String × Int)
  units : List UnitEntry
  diplo : DiploView
deriving DecidableEq, Repr

/-- Construction of the per-player view, game.py `Game.get_player_view`. -/
def Game.getPlayerView (g : Game) (pid : String) : PlayerView :=
  let player := (g.getPlayer pid).getD { id := pid, name := pid }
  { t := g.turn, p := pid, c := player.civ, a := player.age,
    r := player.resources, tc := player.techs.map techName,
    pv := (g.provinces.filter (fun prov => g.isVisible pid prov.id)).map
      (fun prov => (prov.id, provEntry g pid player prov)),
    fog := (g.provinces.filter (fun prov => ¬ g.isVisible pid prov.id)).map
      (fun p => p.id),
    tr := (g.tradeRoutes.filter (fun r => r.owner = pid ∨ r.partner = some pid)).map
      (fun r => (r.fromProvince, r.toProvince, r.income)),
    units := g.getPlayerUnitsList pid,
    diplo := g.getDiplomacyForPlayer pid }

/-- Agent rating profile, rankings.py `AgentProfile` (rating history is kept
as the bare rating values; the wall-clock timestamps are not modelled). -/
structure AgentProfile where
  agentId : String
  rating : Int := 1000
  peakRating : Int := 1000
  wins : Nat := 0
  losses : Nat := 0
  draws : Nat := 0
  gamesPlayed : Nat := 0
  ratingHistory : List Int := []
deriving DecidableEq, Repr

/-- Profile auto-creation, rankings.py `update_multiplayer_elo` lines 88-90. -/
def ensureProfiles (rankings : List AgentProfile) (placements : List String) :
    List AgentProfile :=
  placements.foldl
    (fun rs pid =>
      if rs.any (fun p => p.agentId = pid) then rs else rs ++ [{ agentId := pid }])
    rankings

/-- Rating lookup (total; after `ensureProfiles` every placement resolves). -/
def ratingOf (rankings : List AgentProfile) (pid : String) : Int :=
  ((rankings.find? (fun p => p.agentId = pid)).map (fun p => p.rating)).getD 1000

/-- Expected score, rankings.py `_expected_score`.  The Python float
computation is idealized over the reals. -/
noncomputable def expectedScore (ra rb : Int) : ℝ :=
  1 / (1 + (10 : ℝ) ^ ((((rb : ℝ) - (ra : ℝ))) / 400))

/-- Accumulation of total expected and total actual for position `i`,
rankings.py `update_multiplayer_elo` lines 100-108.  The `i = j` draw
branch is dead code in the source because the loop continues at `i = j`
first; it is therefore absent here. -/
noncomputable def totalsFor (es : Int → Int → ℝ) (ra : Int) (ratings : String → Int)
    (placements : List String) (i : Nat) : ℝ × ℝ :=
  placements.enum.foldl
    (fun (acc : ℝ × ℝ) jp =>
      if i = jp.1 then acc
      else (acc.1 + es ra (ratings jp.2), acc.2 + if i < jp.1 then 1 else 0))
    (0, 0)

/-- New rating for the player at position `i`, rankings.py
`update_multiplayer_elo` lines 110-111, with `K = 32`. -/
noncomputable def newRatingFor (es : Int → Int → ℝ) (ratings : String → Int)
    (placements : List String) (i : Nat) (pid : String) : Int :=
  let ra := ratings pid
  let te_ta := totalsFor es ra ratings placements i
  max 100 (round ((ra : ℝ) + 32 * (te_ta.2 - te_ta.1) / ((placements.length : ℝ) - 1)))

/-- Multiplayer Elo update, rankings.py `update_multiplayer_elo`,
parameterized by the expected-score function (instantiated at
`expectedScore` in the theorems).  Duplicate placements, for which the
Python dicts would overwrite earlier entries, are excluded by the Nodup
hypothesis of the theorems. -/
noncomputable def updateMultiplayerElo (es : Int → Int → ℝ)
    (rankings : List AgentProfile) (placements : List String) : List AgentProfile :=
  let rankings := ensureProfiles rankings placements
  let ratings := fun pid => ratingOf rankings pid
  let newRating : String → Option Int := fun pid =>
    (placements.enum.find? (fun ip => ip.2 = pid)).map
      (fun ip => newRatingFor es ratings placements ip.1 pid)
  let rankings := rankings.map (fun p =>
    match newRating p.agentId with
    | none => p
    | some nr =>
      { p with rating := nr, peakRating := max p.peakRating nr,
               gamesPlayed := p.gamesPlayed + 1,
               ratingHistory := p.ratingHistory ++ [nr] })
  match placements with
  | [] => rankings
  | w :: rest =>
    rankings.map (fun p =>
      if p.agentId = w then { p with wins := p.wins + 1 }
      else if p.agentId ∈ rest then { p with losses := p.losses + 1 }
      else p)

/-- Code-point lexicographic comparison of character lists.  Python string
comparison orders by Unicode code point; Lean's built-in `String.lt` does
not reduce in the kernel, so the order is spelled out here. -/
def lexLt : List Char → List Char → Bool
  | [], [] => false
  | [], _ :: _ => true
  | _ :: _, [] => false
  | a :: as, b :: bs =>
    if a.val.toNat < b.val.toNat then true
    else if b.val.toNat < a.val.toNat then false
    else lexLt as bs

/-- Lexicographic comparison of strings by code point. -/
def strLt (a b : String) : Bool := lexLt a.data b.data

/-- First minimal element of a string list under `strLt`. -/
def minStr? : List String → Option String
  | [] => none
  | x :: xs => some (xs.foldl (fun m y => if strLt y m then y else m) x)

/-- Victory rule transcribed from the specification claim C4, to be compared
with the source's `check_victory`: the conditions are tested in the fixed
order (sole survivor, domination with at least 15 provinces, economy with
at least 100 gold and an owned province, then at the turn limit the score
`3*provinces + units + gold/5 + 5*techs + 10*age` with the highest scorer
winning and ties broken by the lexicographically smallest player id);
"any alive player wins" in stages 2 and 3 is read as the lexicographically
smallest qualifying player. -/
def checkVictorySpec (g : Game) : Option String :=
  let alive := g.players.filter (fun p => p.alive)
  if alive.length = 1 then alive.head?.map (fun p => p.id)
  else
    let doms := alive.filter (fun p => 15 ≤ (g.playerProvinces p.id).length)
    if doms ≠ [] then minStr? (doms.map (fun p => p.id))
    else
      let econ := alive.filter (fun p =>
        100 ≤ p.gold ∧ 1 ≤ (g.playerProvinces p.id).length)
      if econ ≠ [] then minStr? (econ.map (fun p => p.id))
      else if g.maxTurns ≤ g.turn then
        let winners := alive.filter (fun p =>
          ∀ q ∈ alive, g.victoryScore q ≤ g.victoryScore p)
        minStr? (winners.map (fun p => p.id))
      else none

/-- All units of the game in province, then list, order; the scan order of
game.py `Game._find_unit`. -/
def Game.allUnits (g : Game) : List Unit :=
  (g.provinces.map (fun p => p.units)).flatten

/-- Well-formedness of a game state: province ids are distinct, unit ids
are globally distinct, and every unit's `province` field names the province
holding it (the invariants of spec section 3 maintained by the engine). -/
def Game.WF (g : Game) : Prop :=
  (g.provinces.map (fun p => p.id)).Nodup ∧
    (g.allUnits.map (fun u => u.id)).Nodup ∧
    ∀ p ∈ g.provinces, ∀ u ∈ p.units, u.province = p.id

instance (g : Game) : Decidable g.WF := by
  unfold Game.WF
  infer_instance

/-- Chain condition on a target list: each target exists on the map and is
adjacent to the previous position. -/
def chainFrom (g : Game) : String → List String → Bool
  | _, [] => true
  | src, t :: ts =>
    decide (t ∈ adjacentOf g.provinces src) && (g.getProv t).isSome
      && chainFrom g t ts

/-- Evolution relation on one treaty proposal across a diplomacy phase: the
two terminal flags only ever turn on, and a proposal can become accepted
only if it was not already rejected beforehand. -/
def PropEvol (p q : TreatyProposal) : Prop :=
  (p.accepted → q.accepted) ∧ (p.rejected → q.rejected) ∧
    (q.accepted → p.accepted ∨ ¬ p.rejected)

/-- Evolution of the proposal list: it only grows, and the pre-existing
entries evolve pointwise under `PropEvol`. -/
def PropsEvol (l l' : List TreatyProposal) : Prop :=
  l.length ≤ l'.length ∧
    ∀ i (h : i < l.length) (h' : i < l'.length),
      PropEvol (l.get ⟨i, h⟩) (l'.get ⟨i, h'⟩)

/-! Concrete scenario states used by the claim theorems, witnesses and
counterexamples. -/

/-- Scenario S1 defender: one Infantry of p0 at province X. -/
def s1inf : Unit := { id := "u_inf", type := .infantry, owner := "p0", province := "X" }

/-- Scenario S1 attacker: one Cavalry of p1 at province Y. -/
def s1cav : Unit := { id := "u_cav", type := .cavalry, owner := "p1", province := "Y" }

/-- Scenario S1 contested province X (coast: no terrain bonus, defense 0). -/
def s1provX : Province :=
  { id := "X", name := "X", terrain := .coast, owner := some "p0",
    units := [s1inf], adjacent := ["Y"] }

/-- Scenario S1 staging province Y. -/
def s1provY : Province :=
  { id := "Y", name := "Y", terrain := .coast, owner := some "p1",
    units := [s1cav], adjacent := ["X"] }

/-- Scenario S1 game: two players without techs. -/
def s1game : Game :=
  { provinces := [s1provX, s1provY],
    players := [{ id := "p0", name := "p0", civ := "ironborn" },
                { id := "p1", name := "p1", civ := "verdanti" }] }

/-- Scenario S1 orders: p1 moves the Cavalry from Y into X. -/
def s1orders : List (String × Orders) :=
  [("p1", { playerId := "p1", moves := [{ unitId := "u_cav", target := "X" }] })]

/-- Neutral-capture scenario: p0 holds A with a Scout, B is empty and
unowned, C keeps p1 alive. -/
def ncProvA : Province :=
  { id := "A", name := "A", terrain := .coast, owner := some "p0",
    units := [{ id := "sc1", type := .scout, owner := "p0", province := "A" }],
    adjacent := ["B"] }

/-- Neutral-capture scenario: the empty unowned province B. -/
def ncProvB : Province :=
  { id := "B", name := "B", terrain := .coast, owner := none, units := [],
    adjacent := ["A"] }

/-- Neutral-capture scenario: p1's home province C. -/
def ncProvC : Province :=
  { id := "C", name := "C", terrain := .coast, owner := some "p1",
    units := [{ id := "m1", type := .militia, owner := "p1", province := "C" }],
    adjacent := [] }

/-- Neutral-capture scenario game. -/
def ncGame : Game :=
  { provinces := [ncProvA, ncProvB, ncProvC],
    players := [{ id := "p0", name := "p0" }, { id := "p1", name := "p1" }] }

/-- Neutral-capture scenario orders: p0 moves the Scout into B. -/
def ncOrders : List (String × Orders) :=
  [("p0", { playerId := "p0", moves := [{ unitId := "sc1", target := "B" }] })]

/-- Tidecaller-without-corsair combat: p0 (civ tidecallers) defends with
Knights against p1's Cavalry. -/
def tcProv : Province :=
  { id := "X", name := "X", terrain := .coast, owner := some "p0",
    units := [{ id := "k1", type := .knights, owner := "p0", province := "X" },
              { id := "c1", type := .cavalry, owner := "p1", province := "X" }] }

/-- Tidecaller-without-corsair combat: player list. -/
def tcPlayers : List Player :=
  [{ id := "p0", name := "p0", civ := "tidecallers" },
   { id := "p1", name := "p1", civ := "ironborn" }]

/-- Corsair-capture combat instance: the winner p0 fields a Corsair. -/
def ccProv : Province :=
  { id := "X", name := "X", terrain := .coast, owner := some "p0",
    units := [{ id := "co1", type := .corsair, owner := "p0", province := "X" },
              { id := "k1", type := .knights, owner := "p0", province := "X" },
              { id := "m1", type := .militia, owner := "p1", province := "X" }] }

/-- Corsair-capture combat instance: player list. -/
def ccPlayers : List Player :=
  [{ id := "p0", name := "p0", civ := "tidecallers" },
   { id := "p1", name := "p1", civ := "ironborn" }]

/-- Resolved province of the tidecaller-without-corsair combat. -/
def tcProvOut : Province :=
  { id := "X", name := "X", terrain := .coast, owner := some "p0",
    units := [{ id := "k1", type := .knights, owner := "p0", province := "X",
                veteran := 1 }] }

/-- Combat record of the tidecaller-without-corsair combat. -/
def tcResOut : CombatResult :=
  { province := "X", sides := [("p0", 5), ("p1", 3)], winner := "p0",
    losses := [("p1", 1)] }

/-- Resolved province of the corsair-capture combat. -/
def ccProvOut : Province :=
  { id := "X", name := "X", terrain := .coast, owner := some "p0",
    units := [{ id := "co1", type := .corsair, owner := "p0", province := "X",
                veteran := 1 },
              { id := "k1", type := .knights, owner := "p0", province := "X",
                veteran := 1 }] }

/-- Player list after the corsair-capture combat: p0 gained 2 gold. -/
def ccPlayersOut : List Player :=
  [{ id := "p0", name := "p0", civ := "tidecallers", resources := ⟨10, 5, 7⟩ },
   { id := "p1", name := "p1", civ := "ironborn" }]

/-- Combat record of the corsair-capture combat. -/
def ccResOut : CombatResult :=
  { province := "X", sides := [("p0", 8), ("p1", 1)], winner := "p0",
    losses := [("p1", 1)] }

/-- Raided-route scenario: line map A - B - C, p0 owns A, p1 owns C, a unit
of p0 stands on the intermediate province B. -/
def rrProvA : Province :=
  { id := "A", name := "A", terrain := .coast, owner := some "p0", adjacent := ["B"] }

/-- Raided-route scenario: intermediate province B holding p0's militia. -/
def rrProvB : Province :=
  { id := "B", name := "B", terrain := .coast, owner := none,
    units := [{ id := "u1", type := .militia, owner := "p0", province := "B" }],
    adjacent := ["A", "C"] }

/-- Raided-route scenario: p1's endpoint C. -/
def rrProvC : Province :=
  { id := "C", name := "C", terrain := .coast, owner := some "p1", adjacent := ["B"] }

/-- Raided-route scenario: the shared route from A to C, owner p0,
partner p1. -/
def rrRoute : TradeRoute :=
  { id := "tr_A_C", fromProvince := "A", toProvince := "C", owner := "p0",
    partner := some "p1" }

/-- Raided-route scenario game. -/
def rrGame : Game :=
  { provinces := [rrProvA, rrProvB, rrProvC],
    players := [{ id := "p0", name := "p0" }, { id := "p1", name := "p1" }],
    tradeRoutes := [rrRoute] }

/-- Accept-then-reject scenario: one pending proposal targeted at p0. -/
def arProposal : TreatyProposal :=
  { id := "tp_1", proposer := "p1", target := "p0", treatyType := .alliance,
    turnProposed := 0 }

/-- Chain-move scenario: p0's Scout stationed at A on the line map
A - B - C. -/
def cmUnit : Unit := { id := "sc2", type := .scout, owner := "p0", province := "A" }

/-- Chain-move scenario: province A. -/
def cmProvA : Province :=
  { id := "A", name := "A", terrain := .plains, owner := some "p0",
    units := [cmUnit], adjacent := ["B"] }

/-- Chain-move scenario: province B. -/
def cmProvB : Province :=
  { id := "B", name := "B", terrain := .plains, owner := none,
    adjacent := ["A", "C"] }

/-- Chain-move scenario: province C. -/
def cmProvC : Province :=
  { id := "C", name := "C", terrain := .plains, owner := none,
    adjacent := ["B"] }

/-- Chain-move scenario game. -/
def cmGame : Game :=
  { provinces := [cmProvA, cmProvB, cmProvC],
    players := [{ id := "p0", name := "p0" }] }

/-- Accept-then-reject scenario game. -/
def arGame : Game :=
  { provinces := [],
    players := [{ id := "p0", name := "p0" }, { id := "p1", name := "p1" }],
    proposals := [arProposal], treatyUid := 1 }

/-- Accept-then-reject scenario orders: p0 both accepts and rejects the
same proposal in one order set. -/
def arOrders : List (String × Orders) :=
  [("p0", { playerId := "p0",
            diplomacy := some { acceptTreaties := ["tp_1"],
                                rejectTreaties := ["tp_1"] } })]

/-- Victory-check scenario: two alive players at the turn limit, neither
dominant (15 provinces) nor economically victorious (100 gold plus a
province), so the winner is decided by score. -/
def vcGame : Game :=
  { provinces :=
      [{ id := "A", name := "A", terrain := .plains, owner := some "p1" },
       { id := "B", name := "B", terrain := .forest, owner := some "p1" }],
    players :=
      [{ id := "p0", name := "p0" },
       { id := "p1", name := "p1" }],
    turn := 40,
    maxTurns := 40 }

/-- Componentwise non-negativity of a resource triple, the invariant of
spec section 8 on `food`, `iron` and `gold`. -/
def R3.NonNeg (r : R3) : Prop :=
  0 ≤ r.food ∧ 0 ≤ r.iron ∧ 0 ≤ r.gold

instance (r : R3) : Decidable r.NonNeg := by
  unfold R3.NonNeg
  infer_instance

/-- Player-list sanity carried through the turn phases: ids are distinct
(Python keeps players in a dict keyed by id) and every player's resources
are componentwise non-negative. -/
def GoodPlayers (ps : List Player) : Prop :=
  (ps.map (fun p => p.id)).Nodup ∧ ∀ p ∈ ps, R3.NonNeg p.resources

instance (ps : List Player) : Decidable (GoodPlayers ps) := by
  unfold GoodPlayers
  infer_instance

/-- Fog scenario province A: owned by p0, no neighbours. -/
def c2provA : Province :=
  { id := "A", name := "A", terrain := .plains, owner := some "p0" }

/-- Fog scenario province C: unowned, not adjacent to A, holding p0's own
Scout; C is fogged for p0 while the Scout still appears in p0's unit list. -/
def c2provC : Province :=
  { id := "C", name := "C", terrain := .plains,
    units := [{ id := "p0_scout_1", type := .scout, owner := "p0", province := "C" }] }

/-- Fog scenario game: p0 owns A; p0's Scout sits in the fogged province C. -/
def c2gA : Game :=
  { provinces := [c2provA, c2provC],
    players := [{ id := "p0", name := "p0" }] }

/-- The fog scenario game with the fogged province C emptied of units. -/
def c2gB : Game :=
  { provinces := [c2provA, { c2provC with units := [] }],
    players := [{ id := "p0", name := "p0" }] }

/-- Province C with its hidden attributes changed: different terrain, a
foreign owner, a building and an extra foreign unit, while p0's own units
in C are untouched. -/
def c2provC2 : Province :=
  { c2provC with
      terrain := .mountain,
      owner := some "p9",
      units := c2provC.units ++
        [{ id := "e1", type := .infantry, owner := "p9", province := "C" }],
      buildings := [{ type := .fortress }] }

/-- The fog scenario game with province C replaced by `c2provC2`. -/
def c2gC : Game :=
  { provinces := [c2provA, c2provC2],
    players := [{ id := "p0", name := "p0" }] }

/-- Pairwise province relation for fog noninterference: ids and adjacency
agree; a province visible to `pid` in `g` is identical in both states, while
a fogged one is merely not owned by the viewer on either side and carries
the same viewer-owned units. -/
def FogPairOK (g : Game) (pid : String) (pr pr' : Province) : Prop :=
  pr.id = pr'.id ∧ pr.adjacent = pr'.adjacent ∧
    (if g.isVisible pid pr.id = true then pr = pr'
     else pr.owner ≠ some pid ∧ pr'.owner ≠ some pid ∧
       pr.units.filter (fun u => u.owner = pid)
         = pr'.units.filter (fun u => u.owner = pid))

instance (g : Game) (pid : String) (pr pr' : Province) :
    Decidable (FogPairOK g pid pr pr') := by
  unfold FogPairOK
  infer_instance

/-- Two game states differing only in attributes hidden from `pid`: all
non-province fields the view reads are equal and the province lists are
pointwise `FogPairOK`. -/
def DiffOnlyFogged (g g' : Game) (pid : String) : Prop :=
  g.players = g'.players ∧ g.tradeRoutes = g'.tradeRoutes ∧
    g.messages = g'.messages ∧ g.treaties = g'.treaties ∧
    g.proposals = g'.proposals ∧ g.trustPenalties = g'.trustPenalties ∧
    g.turn = g'.turn ∧
    List.Forall₂ (FogPairOK g pid) g.provinces g'.provinces

/-! Theorems. -/

/-- C1: in combat at province X owned by p0 holding one Infantry, after p1
moves one Cavalry in from adjacent Y, with no terrain bonuses and no techs:
p0's effective side strength is 5 (Infantry base 3, +2 triangle versus
Cavalry, +0 defense), p1's is 3; p0 wins, X's owner remains p0, the winner
loses 0 units (floor(3/4) = 0), and the surviving Infantry reaches veteran
level 1. -/
theorem c1_combat_triangle_scenario :
    (s1game.processMoves s1orders).2 =
      [{ province := "X", sides := [("p0", 5), ("p1", 3)], winner := "p0",
         losses := [("p1", 1)] }] ∧
    (s1game.processMoves s1orders).1.getProv "X" =
      some { id := "X", name := "X", terrain := .coast, owner := some "p0",
             units := [{ id := "u_inf", type := .infantry, owner := "p0",
                         province := "X", veteran := 1 }],
             adjacent := ["Y"] } := by
  exact ⟨rfl, rfl⟩

/-- C3 counterexample: after a full `processTurn` in which p0's Scout moves
into the empty unowned province B, B holds one unit and still has no owner,
so the claim that every province with a non-empty unit list has a non-none
owner after `process_turn` is false. -/
theorem c3_counterexample_unowned_units :
    ((ncGame.processTurn ncOrders).getProv "B").map
        (fun p => (p.owner, p.units.length)) = some (none, 1) := by
  exact rfl

/-- C6 counterexample: a combat whose winner p0 has civ Tidecallers but no
surviving Corsair kills one enemy unit yet gains no gold, contradicting the
claim that a Tidecallers combat victor gains exactly 1 gold per enemy unit
killed. -/
theorem c6_counterexample_no_civ_gold :
    (resolveCombat tcPlayers tcProv).map
        (fun r => (r.2.2.winner,
          (r.2.2.losses.filter (fun kv => kv.1 ≠ r.2.2.winner)).foldl
            (fun a kv => a + kv.2) 0,
          r.2.1.map (fun p => (p.id, p.civ, p.resources.gold)))) =
      some ("p0", 1, [("p0", "tidecallers", 5), ("p1", "ironborn", 5)]) ∧
    (tcPlayers.map (fun p => (p.id, p.civ, p.resources.gold))) =
      [("p0", "tidecallers", 5), ("p1", "ironborn", 5)] := by
  exact ⟨rfl, rfl⟩

/-- C7 counterexample: on the line map A - B - C with a shared route owned
by p0 with partner p1, a unit of p0 on the intermediate province B halves
the base income collected by the partner side p1 (2 becomes 1), although no
unit on the path is owned by neither the route owner nor the partner; hence
the claimed characterisation of the halving is false. -/
theorem c7_counterexample_owner_raids_partner :
    rrGame.bfsDist "A" "C" = 2 ∧
    rrGame.routeBase rrRoute "p1" = 1 ∧
    ¬ ∃ q ∈ ((rrGame.bfsPath "A" "C").drop 1).dropLast, ∃ u ∈ rrGame.unitsAt q,
        u.owner ≠ rrRoute.owner ∧ some u.owner ≠ rrRoute.partner := by
  refine ⟨rfl, rfl, ?_⟩
  decide

/-- C8 counterexample: with one pending proposal targeted at p0, an order
set in which p0 both accepts and rejects it leaves the proposal with
`accepted = true` and `rejected = true` after `process_diplomacy`; the
reject guard does not test terminality. -/
theorem c8_counterexample_accept_then_reject :
    ((arGame.processDiplomacy arOrders).proposals.map
        (fun tp => (tp.accepted, tp.rejected))) = [(true, true)] := by
  exact rfl

/-- Key membership after one grouping step: the keys are the previous keys
or additionally the owner of the grouped unit. -/
theorem keys_groupStep_iff (acc : List (String × List Unit)) (u : Unit) (k : String) :
    k ∈ (groupStep acc u).map Prod.fst ↔ k ∈ acc.map Prod.fst ∨ k = u.owner := by
  unfold groupStep
  split
  · rename_i hany
    have hk : (acc.map (fun kv => if kv.1 = u.owner then (kv.1, kv.2 ++ [u]) else kv)).map
        Prod.fst = acc.map Prod.fst := by
      rw [List.map_map]
      apply List.map_congr_left
      intro kv _
      by_cases hc : kv.1 = u.owner <;> simp [hc]
    rw [hk]
    constructor
    · exact Or.inl
    · rintro (h | rfl)
      · exact h
      · simp only [List.any_eq_true, decide_eq_true_eq] at hany
        obtain ⟨kv, hkv, he⟩ := hany
        exact he ▸ List.mem_map_of_mem Prod.fst hkv
  · simp

/-- Keys of the owner grouping are monotone along the fold. -/
theorem keys_foldl_groupStep_mono (units : List Unit) :
    ∀ acc k, k ∈ acc.map Prod.fst → k ∈ (units.foldl groupStep acc).map Prod.fst := by
  induction units with
  | nil => intro acc k hk; exact hk
  | cons v vs ih =>
    intro acc k hk
    exact ih _ _ ((keys_groupStep_iff _ _ _).2 (Or.inl hk))

/-- Every unit owner appears among the keys of the fold of grouping steps. -/
theorem owner_mem_foldl_groupStep (units : List Unit) (u : Unit) (hu : u ∈ units) :
    ∀ acc, u.owner ∈ (units.foldl groupStep acc).map Prod.fst := by
  induction units with
  | nil => cases hu
  | cons v vs ih =>
    intro acc
    rcases List.mem_cons.mp hu with rfl | hv
    · exact keys_foldl_groupStep_mono vs _ _ ((keys_groupStep_iff _ _ _).2 (Or.inr rfl))
    · exact ih hv _

/-- Every unit owner appears among the grouped owner keys, game.py
`_resolve_combat`. -/
theorem owner_mem_groupOwners (units : List Unit) (u : Unit) (hu : u ∈ units) :
    u.owner ∈ (groupOwners units).map Prod.fst :=
  owner_mem_foldl_groupStep units u hu []

/-- Characterisation of survival through the loser-removal fold: a surviving
unit was present before and its owner is no losing key. -/
theorem mem_foldl_loserRemoval (keys : List String) (winner : String) (u : Unit) :
    ∀ us, u ∈ keys.foldl (loserRemovalStep winner) us →
      u ∈ us ∧ ∀ pid ∈ keys, pid ≠ winner → u.owner ≠ pid := by
  induction keys with
  | nil =>
    intro us h
    exact ⟨h, by simp⟩
  | cons k ks ih =>
    intro us h
    obtain ⟨h1, h2⟩ := ih _ h
    unfold loserRemovalStep at h1
    by_cases hk : k = winner
    · rw [if_neg (by simp [hk])] at h1
      refine ⟨h1, ?_⟩
      intro pid hpid hpw
      rcases List.mem_cons.mp hpid with rfl | hp
      · exact absurd hk hpw
      · exact h2 pid hp hpw
    · rw [if_pos hk] at h1
      have hm := List.mem_filter.mp h1
      refine ⟨hm.1, ?_⟩
      intro pid hpid hpw
      rcases List.mem_cons.mp hpid with rfl | hp
      · simpa using hm.2
      · exact h2 pid hp hpw

/-- Removal of one element only discards elements. -/
theorem mem_removeFirst (us : List Unit) (x u : Unit) (h : u ∈ removeFirst us x) :
    u ∈ us := by
  induction us with
  | nil => simp [removeFirst] at h
  | cons v vs ih =>
    unfold removeFirst at h
    by_cases hv : v = x
    · rw [if_pos hv] at h
      exact List.mem_cons_of_mem _ h
    · rw [if_neg hv] at h
      rcases List.mem_cons.mp h with rfl | h2
      · exact List.mem_cons_self _ _
      · exact List.mem_cons_of_mem _ (ih h2)

/-- Iterated removal only discards elements. -/
theorem mem_foldl_removeFirst (l : List Unit) (u : Unit) :
    ∀ us, u ∈ l.foldl removeFirst us → u ∈ us := by
  induction l with
  | nil => intro us h; exact h
  | cons x xs ih =>
    intro us h
    exact mem_removeFirst _ _ _ (ih _ h)

/-- The veterancy bump does not change a unit's owner. -/
theorem veteranBump_owner (winner : String) (u : Unit) :
    (veteranBump winner u).owner = u.owner := by
  unfold veteranBump
  split <;> rfl

/-- C3 amended: whenever combat resolves at a province (at least two owners
present among its units), the resolved province's owner is the combat
winner and every remaining unit belongs to the winner.  Movement alone
never assigns ownership, so a province entered peacefully can keep a none
owner with units present (see the counterexample). -/
theorem c3_amended_combat_assigns_owner (players : List Player)
    (prov prov1 : Province) (players1 : List Player) (res : CombatResult)
    (h : resolveCombat players prov = some (prov1, players1, res)) :
    prov1.owner = some res.winner ∧ ∀ u ∈ prov1.units, u.owner = res.winner := by
  simp only [resolveCombat] at h
  split at h
  · exact absurd h (by simp)
  · simp only [Option.some.injEq, Prod.mk.injEq] at h
    obtain ⟨hprov, hplayers, hres⟩ := h
    subst hprov
    subst hres
    refine ⟨rfl, ?_⟩
    intro u hu
    simp only [List.mem_map] at hu
    obtain ⟨v, hv, rfl⟩ := hu
    rw [veteranBump_owner]
    have hv1 := mem_foldl_removeFirst _ _ _ hv
    obtain ⟨hmem, hall⟩ := mem_foldl_loserRemoval _ _ _ _ hv1
    by_contra hne
    exact hall v.owner (owner_mem_groupOwners _ v hmem) hne rfl

/-- C3 amended witness: the combat-assignment theorem applied to the
concrete knight-versus-cavalry combat. -/
theorem c3_amended_witness :
    tcProvOut.owner = some tcResOut.winner ∧
      ∀ u ∈ tcProvOut.units, u.owner = tcResOut.winner :=
  c3_amended_combat_assigns_owner tcPlayers tcProv tcProvOut tcPlayers tcResOut
    (by rfl)

/-- A lookup by id commutes with an id-preserving map of the player list. -/
theorem find?_map_id_preserving (players : List Player) (f : Player → Player)
    (hf : ∀ p, (f p).id = p.id) (q : String) :
    (players.map f).find? (fun p => p.id = q) =
      (players.find? (fun p => p.id = q)).map f := by
  induction players with
  | nil => rfl
  | cons p ps ih =>
    by_cases hq : p.id = q
    · rw [List.map_cons, List.find?_cons_of_pos _ (by simp [hf, hq]),
        List.find?_cons_of_pos _ (by simp [hq])]
      rfl
    · rw [List.map_cons, List.find?_cons_of_neg _ (by simp [hf, hq]),
        List.find?_cons_of_neg _ (by simp [hq])]
      exact ih

/-- Lookup shape of the conditional gold credit at the end of combat
resolution. -/
theorem find?_goldUpdate (players : List Player) (w : String) (gain : Int)
    (cnt : Nat) (q : String) :
    (if 0 < cnt then addGoldTo w gain players else players).find?
        (fun p => p.id = q) =
      (players.find? (fun p => p.id = q)).map (fun p =>
        if q = w ∧ 0 < cnt then
          { p with resources := { p.resources with gold := p.resources.gold + gain } }
        else p) := by
  by_cases hc : 0 < cnt
  · rw [if_pos hc]
    unfold addGoldTo
    rw [find?_map_id_preserving _ _ (fun p => by split <;> rfl)]
    cases hfind : players.find? (fun p => p.id = q) with
    | none => rfl
    | some p =>
      have hpq : p.id = q := by simpa using List.find?_some hfind
      simp only [Option.map_some']
      rw [hpq]
      simp [hc]
  · rw [if_neg hc]
    cases hfind : players.find? (fun p => p.id = q) with
    | none => rfl
    | some p => simp [hc]

/-- C6 amended: after any resolved combat, the looked-up record of any
player q equals the pre-combat record, except that when q is the winner and
the surviving winner units include at least one Corsair, q's gold grows by
exactly 2 per enemy unit killed in this combat.  The winner's civ plays no
role in this credit. -/
theorem c6_amended_corsair_gold (players : List Player) (prov prov1 : Province)
    (players1 : List Player) (res : CombatResult)
    (h : resolveCombat players prov = some (prov1, players1, res)) (q : String) :
    players1.find? (fun p => p.id = q) =
      (players.find? (fun p => p.id = q)).map (fun p =>
        if q = res.winner ∧ 0 < (prov1.units.filter
            (fun u => u.owner = res.winner ∧ u.type = .corsair)).length then
          { p with resources := { p.resources with gold := p.resources.gold +
              2 * (((res.losses.filter (fun kv => kv.1 ≠ res.winner)).foldl
                (fun a kv => a + kv.2) 0 : Nat) : Int) } }
        else p) := by
  simp only [resolveCombat] at h
  split at h
  · exact absurd h (by simp)
  · simp only [Option.some.injEq, Prod.mk.injEq] at h
    obtain ⟨hprov, hplayers, hres⟩ := h
    subst hprov
    subst hres
    subst hplayers
    exact find?_goldUpdate players _ _ _ q

/-- C6 amended witness: the corsair gold credit theorem applied to the
concrete corsair combat, in which p0 wins with a surviving Corsair, one
enemy unit dies and p0's gold rises from 5 to 7. -/
theorem c6_amended_witness :
    ccPlayersOut.find? (fun p => p.id = "p0") =
      (ccPlayers.find? (fun p => p.id = "p0")).map (fun p =>
        if "p0" = ccResOut.winner ∧ 0 < (ccProvOut.units.filter
            (fun u => u.owner = ccResOut.winner ∧ u.type = .corsair)).length then
          { p with resources := { p.resources with gold := p.resources.gold +
              2 * (((ccResOut.losses.filter (fun kv => kv.1 ≠ ccResOut.winner)).foldl
                (fun a kv => a + kv.2) 0 : Nat) : Int) } }
        else p) :=
  c6_amended_corsair_gold ccPlayers ccProv ccProvOut ccPlayersOut ccResOut (by rfl) "p0"

/-- Boolean raid check as the existence of a foreign unit on the BFS path,
game.py `_is_route_raided`. -/
theorem isRouteRaided_iff (g : Game) (tr : TradeRoute) (pid : String) :
    g.isRouteRaided tr pid = true ↔
      ∃ q ∈ ((g.bfsPath tr.fromProvince tr.toProvince).drop 1).dropLast,
        ∃ u ∈ g.unitsAt q, u.owner ≠ pid ∧ some u.owner ≠ tr.partner := by
  simp [Game.isRouteRaided, List.any_eq_true]

/-- C7 amended: for every trade route and collecting side `pid`, the base
income is the halved BFS distance exactly when some intermediate province
of the BFS shortest path holds a unit whose owner is neither `pid` itself
nor the route partner; in particular, for the partner side, units of the
route owner do raid the route (see the counterexample). -/
theorem c7_amended_route_base_halving (g : Game) (tr : TradeRoute) (pid : String) :
    g.routeBase tr pid =
      if ∃ q ∈ ((g.bfsPath tr.fromProvince tr.toProvince).drop 1).dropLast,
          ∃ u ∈ g.unitsAt q, u.owner ≠ pid ∧ some u.owner ≠ tr.partner
      then g.bfsDist tr.fromProvince tr.toProvince / 2
      else g.bfsDist tr.fromProvince tr.toProvince := by
  simp only [Game.routeBase]
  by_cases hx : ∃ q ∈ ((g.bfsPath tr.fromProvince tr.toProvince).drop 1).dropLast,
      ∃ u ∈ g.unitsAt q, u.owner ≠ pid ∧ some u.owner ≠ tr.partner
  · rw [if_pos ((isRouteRaided_iff g tr pid).2 hx), if_pos hx]
  · rw [if_neg (fun hb => hx ((isRouteRaided_iff g tr pid).1 hb)), if_neg hx]

/-- Reflexivity of the proposal evolution relation. -/
theorem propEvol_refl (p : TreatyProposal) : PropEvol p p :=
  ⟨id, id, Or.inl⟩

/-- Transitivity of the proposal evolution relation. -/
theorem propEvol_trans {p q r : TreatyProposal} (h1 : PropEvol p q)
    (h2 : PropEvol q r) : PropEvol p r := by
  obtain ⟨a1, r1, g1⟩ := h1
  obtain ⟨a2, r2, g2⟩ := h2
  refine ⟨fun h => a2 (a1 h), fun h => r2 (r1 h), fun h => ?_⟩
  rcases g2 h with hq | hq
  · exact g1 hq
  · by_cases hp : p.accepted
    · exact Or.inl hp
    · exact Or.inr (fun hr => hq (r1 hr))

/-- Reflexivity of the proposal-list evolution relation. -/
theorem propsEvol_refl (l : List TreatyProposal) : PropsEvol l l :=
  ⟨le_refl _, fun _ _ _ => propEvol_refl _⟩

/-- Transitivity of the proposal-list evolution relation. -/
theorem propsEvol_trans {a b c : List TreatyProposal} (h1 : PropsEvol a b)
    (h2 : PropsEvol b c) : PropsEvol a c := by
  obtain ⟨l1, e1⟩ := h1
  obtain ⟨l2, e2⟩ := h2
  refine ⟨le_trans l1 l2, fun i h h' => ?_⟩
  exact propEvol_trans (e1 i h (lt_of_lt_of_le h l1)) (e2 i (lt_of_lt_of_le h l1) h')

/-- Appending proposals preserves the evolution relation. -/
theorem propsEvol_append (l xs : List TreatyProposal) : PropsEvol l (l ++ xs) := by
  refine ⟨by simp, fun i h h' => ?_⟩
  rw [List.get_append i h]
  exact propEvol_refl _

/-- Updating one entry by an evolved value preserves the relation. -/
theorem propsEvol_set (l : List TreatyProposal) (i : Nat) (tp q : TreatyProposal)
    (hi : l[i]? = some tp) (h : PropEvol tp q) : PropsEvol l (l.set i q) := by
  refine ⟨by simp, fun j hj hj' => ?_⟩
  by_cases hij : i = j
  · subst hij
    have hget : l.get ⟨i, hj⟩ = tp := by
      rw [List.getElem?_eq_getElem hj] at hi
      simpa using hi
    rw [hget]
    have : (l.set i q).get ⟨i, hj'⟩ = q := by
      simp [List.getElem_set_eq]
    rw [this]
    exact h
  · have : (l.set i q).get ⟨j, hj'⟩ = l.get ⟨j, hj⟩ := by
      simp [List.getElem_set, hij]
    rw [this]
    exact propEvol_refl _

/-- Fold lemma: a fold whose every step evolves the proposal list evolves
the proposal list. -/
theorem propsEvol_foldl {α : Type} (f : Game → α → Game) (l : List α)
    (hf : ∀ s x, PropsEvol s.proposals (f s x).proposals) :
    ∀ s : Game, PropsEvol s.proposals (l.foldl f s).proposals := by
  induction l with
  | nil => intro s; exact propsEvol_refl _
  | cons x xs ih =>
    intro s
    exact propsEvol_trans (hf s x) (ih _)

/-- Each accept-scan step evolves the proposal list. -/
theorem propsEvol_acceptScan (t : Game) (pid tpId : String) :
    PropsEvol t.proposals (acceptScan t pid tpId).proposals := by
  unfold acceptScan
  apply propsEvol_foldl
  intro s i
  cases hl : s.proposals[i]? with
  | none => simp only [hl]; exact propsEvol_refl _
  | some tp =>
    simp only [hl]
    split
    · rename_i hguard
      exact propsEvol_set _ _ _ _ hl
        ⟨fun _ => rfl, fun h => h, fun _ => Or.inr hguard.2.2.2⟩
    · exact propsEvol_refl _

/-- Each reject-scan step evolves the proposal list. -/
theorem propsEvol_rejectScan (t : Game) (pid tpId : String) :
    PropsEvol t.proposals (rejectScan t pid tpId).proposals := by
  unfold rejectScan
  apply propsEvol_foldl
  intro s i
  cases hl : s.proposals[i]? with
  | none => simp only [hl]; exact propsEvol_refl _
  | some tp =>
    simp only [hl]
    split
    · exact propsEvol_set _ _ _ _ hl
        ⟨fun h => h, fun _ => rfl, fun h => Or.inl h⟩
    · exact propsEvol_refl _

/-- The break scan leaves the proposal list unchanged. -/
theorem propsEvol_breakScan (t : Game) (pid tId : String) :
    PropsEvol t.proposals (breakScan t pid tId).proposals := by
  unfold breakScan
  apply propsEvol_foldl
  intro s i
  cases hl : s.treaties[i]? with
  | none => simp only [hl]; exact propsEvol_refl _
  | some tr =>
    simp only [hl]
    split
    · exact propsEvol_refl _
    · exact propsEvol_refl _

/-- One player's diplomacy phase evolves the proposal list. -/
theorem propsEvol_diplomacyFor (s : Game) (pid : String) (d : DiplomacyOrder) :
    PropsEvol s.proposals (diplomacyFor s pid d).proposals := by
  unfold diplomacyFor
  refine propsEvol_trans (propsEvol_foldl _ _ ?_ s)
    (propsEvol_trans (propsEvol_foldl _ _ ?_ _)
      (propsEvol_trans (propsEvol_foldl _ _ ?_ _)
        (propsEvol_trans (propsEvol_foldl _ _ ?_ _)
          (propsEvol_foldl _ _ ?_ _))))
  · intro s' m
    exact propsEvol_refl _
  · intro s' pr
    split
    · exact propsEvol_refl _
    · split
      · exact propsEvol_refl _
      · exact propsEvol_append _ _
  · intro s' x
    exact propsEvol_acceptScan _ _ _
  · intro s' x
    exact propsEvol_rejectScan _ _ _
  · intro s' x
    exact propsEvol_breakScan _ _ _

/-- C8 amended: process_diplomacy never clears a terminal flag and never
marks accepted a proposal that was already accepted or rejected; the
proposal list only grows.  Rejection, however, is guarded only by the
target check, so an already accepted (or rejected) proposal can still be
marked rejected, as the counterexample shows. -/
theorem c8_amended_proposal_monotone (g : Game) (orders : List (String × Orders)) :
    PropsEvol g.proposals (g.processDiplomacy orders).proposals := by
  unfold Game.processDiplomacy
  apply propsEvol_foldl
  intro s kv
  cases kv.2.diplomacy with
  | none => exact propsEvol_refl _
  | some d => exact propsEvol_diplomacyFor _ _ _

/-- The first filtered element is the first found element. -/
theorem head?_filter_eq_find? (p : Unit → Bool) (l : List Unit) :
    (l.filter p).head? = l.find? p := by
  induction l with
  | nil => rfl
  | cons w ws ih =>
    by_cases hw : p w = true
    · rw [List.filter_cons_of_pos hw, List.find?_cons_of_pos _ hw]
      rfl
    · rw [List.filter_cons_of_neg (by simpa using hw), List.find?_cons_of_neg _ hw]
      exact ih

/-- Unfolding equation of `removeFirst` on a cons cell. -/
theorem removeFirst_cons (v : Unit) (vs : List Unit) (u : Unit) :
    removeFirst (v :: vs) u = if v = u then vs else v :: removeFirst vs u := rfl

/-- Filtering commutes with removal of one element satisfying the filter. -/
theorem filter_removeFirst (p : Unit → Bool) (v : Unit) (hv : p v = true) :
    ∀ us : List Unit, (removeFirst us v).filter p = removeFirst (us.filter p) v := by
  intro us
  induction us with
  | nil => rfl
  | cons w ws ih =>
    rw [removeFirst_cons]
    by_cases hw : w = v
    · rw [if_pos hw]
      subst hw
      rw [List.filter_cons_of_pos hv, removeFirst_cons, if_pos rfl]
    · rw [if_neg hw]
      by_cases hp : p w = true
      · rw [List.filter_cons_of_pos hp, List.filter_cons_of_pos hp,
          removeFirst_cons, if_neg hw, ih]
      · rw [List.filter_cons_of_neg (by simpa using hp),
          List.filter_cons_of_neg (by simpa using hp), ih]

/-- Filtering distributes over a flatten. -/
theorem filter_flatten_units (p : Unit → Bool) (l : List (List Unit)) :
    l.flatten.filter p = (l.map (List.filter p)).flatten := by
  induction l with
  | nil => rfl
  | cons x xs ih =>
    simp only [List.flatten_cons, List.filter_append, List.map_cons, ih]

/-- A flatten over per-province lists that vanish away from one member
equals that member's list. -/
theorem flatten_single_prov (f : Province → List Unit) :
    ∀ (P : List Province) (p0 : Province), (P.map (fun p => p.id)).Nodup →
      p0 ∈ P → (∀ q ∈ P, q.id ≠ p0.id → f q = []) →
      (P.map f).flatten = f p0 := by
  intro P
  induction P with
  | nil => intro p0 _ h; cases h
  | cons q Q ih =>
    intro p0 hnd hmem hothers
    simp only [List.map_cons, List.flatten_cons]
    simp only [List.map_cons, List.nodup_cons] at hnd
    by_cases hq : q.id = p0.id
    · have hq0 : q = p0 := by
        rcases List.mem_cons.mp hmem with rfl | hp0
        · rfl
        · exact absurd (hq ▸ List.mem_map_of_mem (fun r => r.id) hp0) hnd.1
      subst hq0
      have hrest : (Q.map f).flatten = [] := by
        rw [List.flatten_eq_nil_iff]
        intro l hl
        rcases List.mem_map.mp hl with ⟨r, hr, rfl⟩
        apply hothers r (List.mem_cons_of_mem _ hr)
        intro hid
        exact hnd.1 (hid ▸ List.mem_map_of_mem (fun s => s.id) hr)
      rw [hrest, List.append_nil]
    · have hp0 : p0 ∈ Q := by
        rcases List.mem_cons.mp hmem with rfl | h
        · exact absurd rfl hq
        · exact h
      rw [hothers q (List.mem_cons_self _ _) hq, List.nil_append]
      exact ih p0 hnd.2 hp0 (fun r hr => hothers r (List.mem_cons_of_mem _ hr))

/-- Members of a province list with distinct ids are determined by id. -/
theorem prov_eq_of_id_eq {P : List Province}
    (hnd : (P.map (fun p => p.id)).Nodup) {p1 p2 : Province}
    (h1 : p1 ∈ P) (h2 : p2 ∈ P) (he : p1.id = p2.id) : p1 = p2 := by
  induction P with
  | nil => cases h1
  | cons q Q ih =>
    simp only [List.map_cons, List.nodup_cons] at hnd
    rcases List.mem_cons.mp h1 with rfl | hm1
    · rcases List.mem_cons.mp h2 with rfl | hm2
      · rfl
      · exact absurd (he ▸ List.mem_map_of_mem (fun r => r.id) hm2) hnd.1
    · rcases List.mem_cons.mp h2 with rfl | hm2
      · exact absurd (he ▸ List.mem_map_of_mem (fun r => r.id) hm1) hnd.1
      · exact ih hnd.2 hm1 hm2

/-- Lookup by id commutes with an id-preserving province map. -/
theorem getProv_map_id_preserving (P : List Province) (F : Province → Province)
    (hF : ∀ p, (F p).id = p.id) (x : String) :
    (P.map F).find? (fun p => p.id = x) =
      (P.find? (fun p => p.id = x)).map F := by
  induction P with
  | nil => rfl
  | cons p ps ih =>
    by_cases hx : p.id = x
    · rw [List.map_cons, List.find?_cons_of_pos _ (by simp [hF, hx]),
        List.find?_cons_of_pos _ (by simp [hx])]
      rfl
    · rw [List.map_cons, List.find?_cons_of_neg _ (by simp [hF, hx]),
        List.find?_cons_of_neg _ (by simp [hx])]
      exact ih

/-- The adjacency lookup is the adjacency of the province lookup. -/
theorem adjacentOf_eq_getProv (g : Game) (x : String) :
    adjacentOf g.provinces x =
      match g.getProv x with
      | some p => p.adjacent
      | none => [] := rfl

/-- A unit with a globally unique id is the only element of the id filter. -/
theorem filter_eq_singleton_of_nodup_ids (l : List Unit)
    (hnd : (l.map (fun u => u.id)).Nodup) (u : Unit) (hu : u ∈ l) :
    l.filter (fun w => w.id = u.id) = [u] := by
  induction l with
  | nil => cases hu
  | cons w ws ih =>
    simp only [List.map_cons, List.nodup_cons] at hnd
    rcases List.mem_cons.mp hu with rfl | hmem
    · rw [List.filter_cons_of_pos (by simp)]
      have hnil : ws.filter (fun x => x.id = u.id) = [] := by
        rw [List.filter_eq_nil_iff]
        intro a ha
        simp only [decide_eq_true_eq]
        intro hid
        exact hnd.1 (hid ▸ List.mem_map_of_mem (fun s => s.id) ha)
      rw [hnil]
    · by_cases hw : w.id = u.id
      · exact absurd (hw ▸ List.mem_map_of_mem (fun s => s.id) hmem) hnd.1
      · rw [List.filter_cons_of_neg (by simpa using hw)]
        exact ih hnd.2 hmem

/-- Chain admissibility depends only on the adjacency lookup and province
existence. -/
theorem chainFrom_congr (g g' : Game)
    (hadj : adjacentOf g'.provinces = adjacentOf g.provinces)
    (hex : ∀ x, (g'.getProv x).isSome = (g.getProv x).isSome) :
    ∀ src ts, chainFrom g' src ts = chainFrom g src ts := by
  intro src ts
  induction ts generalizing src with
  | nil => rfl
  | cons t ts ih => simp only [chainFrom, hadj, hex, ih]

/-- Move step for the multi-move induction: under the uniqueness invariant,
one valid move order relocates the tracked unit to the target and preserves
the invariant, the province ids, the adjacency lookup and province
existence. -/
theorem applyMove_chain_step (g : Game) (pid : String) (v : Unit) (t : String)
    (hF : g.allUnits.filter (fun w => w.id = v.id) = [v])
    (hloc : ∀ p ∈ g.provinces, ∀ w ∈ p.units, w.id = v.id → p.id = v.province)
    (hnd : (g.provinces.map (fun p => p.id)).Nodup)
    (howner : v.owner = pid)
    (hadj : t ∈ adjacentOf g.provinces v.province)
    (hex : (g.getProv t).isSome = true) :
    (applyMove g pid { unitId := v.id, target := t }).allUnits.filter
        (fun w => w.id = v.id) = [{ v with province := t }] ∧
    (∀ p ∈ (applyMove g pid { unitId := v.id, target := t }).provinces,
        ∀ w ∈ p.units, w.id = v.id → p.id = t) ∧
    ((applyMove g pid { unitId := v.id, target := t }).provinces.map
        (fun p => p.id)) = g.provinces.map (fun p => p.id) ∧
    adjacentOf (applyMove g pid { unitId := v.id, target := t }).provinces
        = adjacentOf g.provinces ∧
    (∀ x, ((applyMove g pid { unitId := v.id, target := t }).getProv x).isSome
        = (g.getProv x).isSome) := by
  have hfind : g.findUnit v.id = some v := by
    rw [show g.findUnit v.id = (g.allUnits.filter (fun w => w.id = v.id)).head?
      from (head?_filter_eq_find? _ _).symm, hF]
    rfl
  have hvmem : v ∈ g.allUnits := by
    have : v ∈ g.allUnits.filter (fun w => w.id = v.id) := by
      rw [hF]; exact List.mem_cons_self _ _
    exact (List.mem_filter.mp this).1
  obtain ⟨psrc, hpsrc_mem, hv_in_src⟩ : ∃ p ∈ g.provinces, v ∈ p.units := by
    obtain ⟨l, hl, hvl⟩ := List.mem_flatten.mp hvmem
    obtain ⟨p, hp, rfl⟩ := List.mem_map.mp hl
    exact ⟨p, hp, hvl⟩
  have hsrc_id : psrc.id = v.province := hloc psrc hpsrc_mem v hv_in_src rfl
  have hgetsrc : g.getProv v.province = some psrc := by
    cases hfind2 : g.getProv v.province with
    | none =>
      have := List.find?_eq_none.mp hfind2 psrc hpsrc_mem
      simp [hsrc_id] at this
    | some q =>
      have hq_mem := List.mem_of_find?_eq_some hfind2
      have hq_id : q.id = v.province := by simpa using List.find?_some hfind2
      rw [prov_eq_of_id_eq hnd hq_mem hpsrc_mem (by rw [hq_id, hsrc_id])]
  obtain ⟨pdst, hgetdst⟩ : ∃ p, g.getProv t = some p := by
    cases h : g.getProv t with
    | none => rw [h] at hex; simp at hex
    | some p => exact ⟨p, rfl⟩
  have hdst_id : pdst.id = t := by simpa using List.find?_some hgetdst
  have hadj2 : pdst.id ∈ psrc.adjacent := by
    rw [adjacentOf_eq_getProv, hgetsrc] at hadj
    rw [hdst_id]
    exact hadj
  have happ : applyMove g pid { unitId := v.id, target := t } =
      { g with provinces := g.provinces.map (fun p =>
          let us := if p.id = psrc.id then removeFirst p.units v else p.units
          if p.id = pdst.id then { p with units := us ++ [{ v with province := pdst.id }] }
          else { p with units := us }) } := by
    simp only [applyMove, hfind, hgetsrc, hgetdst]
    rw [if_neg (by simp [howner]), if_pos hadj2]
  set FF : Province → Province := fun p =>
    let us := if p.id = psrc.id then removeFirst p.units v else p.units
    if p.id = pdst.id then { p with units := us ++ [{ v with province := pdst.id }] }
    else { p with units := us } with hFF
  have hFFid : ∀ p, (FF p).id = p.id := by
    intro p
    simp only [hFF]
    split <;> rfl
  have hFFadj : ∀ p, (FF p).adjacent = p.adjacent := by
    intro p
    simp only [hFF]
    split <;> rfl
  have hpointwise : ∀ p ∈ g.provinces, ((FF p).units).filter (fun w => w.id = v.id)
      = if p.id = pdst.id then [{ v with province := pdst.id }] else [] := by
    intro p hp
    have husp : (if p.id = psrc.id then removeFirst p.units v else p.units).filter
        (fun w => w.id = v.id) = [] := by
      by_cases hps : p.id = psrc.id
      · rw [if_pos hps]
        have hpeq : p = psrc := prov_eq_of_id_eq hnd hp hpsrc_mem (by rw [hps])
        subst hpeq
        rw [filter_removeFirst _ _ (by simp)]
        have hflat : (g.provinces.map (fun q =>
            q.units.filter (fun w => w.id = v.id))).flatten = [v] := by
          have h0 := filter_flatten_units (fun w => w.id = v.id)
            (g.provinces.map (fun q => q.units))
          rw [List.map_map] at h0
          exact h0.symm.trans hF
        have hsingle : p.units.filter (fun w => w.id = v.id) = [v] :=
          (flatten_single_prov (fun q => q.units.filter (fun w => w.id = v.id))
            g.provinces p hnd hp (fun q hq hqne => by
              rw [List.filter_eq_nil_iff]
              intro a ha
              simp only [decide_eq_true_eq]
              intro hid
              exact hqne (by rw [hloc q hq a ha hid, ← hsrc_id]))).symm.trans hflat
        rw [hsingle, removeFirst_cons, if_pos rfl]
      · rw [if_neg hps]
        rw [List.filter_eq_nil_iff]
        intro a ha
        simp only [decide_eq_true_eq]
        intro hid
        exact hps (by rw [hloc p hp a ha hid, ← hsrc_id])
    simp only [hFF]
    by_cases hpd : p.id = pdst.id
    · rw [if_pos hpd, if_pos hpd]
      show ((if p.id = psrc.id then removeFirst p.units v else p.units)
          ++ [{ v with province := pdst.id }]).filter (fun w : Unit => w.id = v.id)
          = [{ v with province := pdst.id }]
      rw [List.filter_append, husp, List.nil_append,
        List.filter_cons_of_pos (by simp), List.filter_nil]
    · rw [if_neg hpd, if_neg hpd]
      exact husp
  rw [happ]
  refine ⟨?_, ?_, ?_, ?_, ?_⟩
  · show ((g.provinces.map FF).map (fun p => p.units)).flatten.filter
        (fun w => w.id = v.id) = _
    rw [filter_flatten_units, List.map_map, List.map_map]
    refine (flatten_single_prov _ g.provinces pdst hnd
      (List.mem_of_find?_eq_some hgetdst) ?_).trans ?_
    · intro q hq hqne
      have h1 := hpointwise q hq
      rw [if_neg hqne] at h1
      exact h1
    · have h2 := hpointwise pdst (List.mem_of_find?_eq_some hgetdst)
      rw [if_pos rfl] at h2
      rw [hdst_id] at h2
      exact h2
  · intro p' hp' w hw hwid
    obtain ⟨p, hp, rfl⟩ := List.mem_map.mp hp'
    have hwmem : w ∈ ((FF p).units).filter (fun x => x.id = v.id) :=
      List.mem_filter.mpr ⟨hw, by simpa using hwid⟩
    rw [hpointwise p hp] at hwmem
    by_cases hpd : p.id = pdst.id
    · rw [hFFid, hpd, hdst_id]
    · rw [if_neg hpd] at hwmem
      cases hwmem
  · rw [List.map_map]
    exact List.map_congr_left (fun p _ => hFFid p)
  · funext x
    show (match (g.provinces.map FF).find? (fun p => p.id = x) with
        | some p => p.adjacent | none => []) =
      (match g.provinces.find? (fun p => p.id = x) with
        | some p => p.adjacent | none => [])
    rw [getProv_map_id_preserving _ _ hFFid]
    cases g.provinces.find? (fun p => p.id = x) with
    | none => rfl
    | some p => exact hFFadj p
  · intro x
    show ((g.provinces.map FF).find? (fun p => p.id = x)).isSome
        = (g.provinces.find? (fun p => p.id = x)).isSome
    rw [getProv_map_id_preserving _ _ hFFid]
    cases g.provinces.find? (fun p => p.id = x) with
    | none => rfl
    | some p => rfl

/-- Multi-move induction: a chain of valid single-step moves for one unit,
processed in submission order, relocates the unit to the last target. -/
theorem chain_moves_aux (targets : List String) :
    ∀ (g : Game) (pid : String) (v : Unit),
      g.allUnits.filter (fun w => w.id = v.id) = [v] →
      (∀ p ∈ g.provinces, ∀ w ∈ p.units, w.id = v.id → p.id = v.province) →
      (g.provinces.map (fun p => p.id)).Nodup →
      v.owner = pid →
      chainFrom g v.province targets = true →
      (applyPlayerMoves g pid (targets.map
          (fun t => { unitId := v.id, target := t }))).findUnit v.id
        = some { v with province := targets.getLastD v.province } := by
  induction targets with
  | nil =>
    intro g pid v hF hloc hnd howner hchain
    show g.findUnit v.id = some { v with province := v.province }
    rw [show g.findUnit v.id = (g.allUnits.filter (fun w => w.id = v.id)).head?
      from (head?_filter_eq_find? _ _).symm, hF]
    rfl
  | cons t ts ih =>
    intro g pid v hF hloc hnd howner hchain
    simp only [chainFrom, Bool.and_eq_true, decide_eq_true_eq] at hchain
    obtain ⟨⟨hadj, hex⟩, hrest⟩ := hchain
    obtain ⟨hF', hloc', hids, hadjc, hexc⟩ :=
      applyMove_chain_step g pid v t hF hloc hnd howner hadj hex
    have hnd' : ((applyMove g pid { unitId := v.id, target := t }).provinces.map
        (fun p => p.id)).Nodup := by
      rw [hids]; exact hnd
    have hchain' : chainFrom (applyMove g pid { unitId := v.id, target := t }) t ts
        = true := by
      rw [chainFrom_congr g _ hadjc hexc]
      exact hrest
    have hres := ih (applyMove g pid { unitId := v.id, target := t }) pid
      { v with province := t } hF' hloc' hnd' howner hchain'
    rw [List.getLastD_cons]
    exact hres

/-- C10: because move orders are applied immediately in submission order and
each is validated against the unit's current, already updated location, an
order set containing k move orders for one unit whose targets form a chain
of adjacent provinces moves that unit k steps within the movement phase of
a single turn. -/
theorem c10_multi_step_moves (g : Game) (pid : String) (u : Unit)
    (targets : List String) (hwf : g.WF) (hu : g.findUnit u.id = some u)
    (howner : u.owner = pid) (hchain : chainFrom g u.province targets = true) :
    (applyAllMoves g
        [(pid, { playerId := pid,
                 moves := targets.map (fun t => { unitId := u.id, target := t }) })]).findUnit
        u.id
      = some { u with province := targets.getLastD u.province } := by
  obtain ⟨hndp, hndu, hlocwf⟩ := hwf
  have hF : g.allUnits.filter (fun w => w.id = u.id) = [u] :=
    filter_eq_singleton_of_nodup_ids _ hndu u (List.mem_of_find?_eq_some hu)
  have hloc : ∀ p ∈ g.provinces, ∀ w ∈ p.units, w.id = u.id → p.id = u.province := by
    intro p hp w hw hwid
    have hwall : w ∈ g.allUnits :=
      List.mem_flatten.mpr ⟨p.units, List.mem_map_of_mem (fun q => q.units) hp, hw⟩
    have : w ∈ g.allUnits.filter (fun x => x.id = u.id) :=
      List.mem_filter.mpr ⟨hwall, by simpa using hwid⟩
    rw [hF] at this
    have hwu : w = u := by simpa using this
    rw [← hlocwf p hp w hw, hwu]
  exact chain_moves_aux targets g pid u hF hloc hndp howner hchain

/-- Irreflexivity of the code-point lexicographic order. -/
theorem lexLt_irrefl : ∀ l, lexLt l l = false := by
  intro l
  induction l with
  | nil => rfl
  | cons a as ih => simp [lexLt, ih]

/-- Asymmetry of the code-point lexicographic order. -/
theorem lexLt_asymm : ∀ l m, lexLt l m = true → lexLt m l = false := by
  intro l
  induction l with
  | nil =>
    intro m h
    cases m with
    | nil => cases h
    | cons b bs => rfl
  | cons a as ih =>
    intro m h
    cases m with
    | nil => cases h
    | cons b bs =>
      simp only [lexLt] at h ⊢
      by_cases h1 : a.val.toNat < b.val.toNat
      · rw [if_neg (by omega), if_pos h1]
      · rw [if_neg h1] at h
        by_cases h2 : b.val.toNat < a.val.toNat
        · rw [if_pos h2] at h
          cases h
        · rw [if_neg h2] at h
          rw [if_neg h2, if_neg h1]
          exact ih bs h

/-- Asymmetry of the string order. -/
theorem strLt_asymm {a b : String} (h : strLt a b = true) : strLt b a = false :=
  lexLt_asymm _ _ h

/-- The fold inside `minStr?` keeps a lower bound. -/
theorem foldl_minStr_of_min (x : String) (xs : List String)
    (h : ∀ y ∈ xs, strLt y x = false) :
    xs.foldl (fun m y => if strLt y m then y else m) x = x := by
  induction xs with
  | nil => rfl
  | cons y ys ih =>
    rw [List.foldl_cons, if_neg (by simp [h y (List.mem_cons_self _ _)])]
    exact ih (fun z hz => h z (List.mem_cons_of_mem _ hz))

/-- A head below the tail is the minimum. -/
theorem minStr?_cons_of_min (x : String) (xs : List String)
    (h : ∀ y ∈ xs, strLt y x = false) : minStr? (x :: xs) = some x := by
  show some (xs.foldl (fun m y => if strLt y m then y else m) x) = some x
  rw [foldl_minStr_of_min x xs h]

/-- On a list sorted by id, the first satisfying element is the
lexicographically least satisfying element. -/
theorem find?_id_eq_minStr_filter (l : List Player) (P : Player → Bool)
    (hs : List.Pairwise (fun a b => strLt a.id b.id = true) l) :
    (l.find? P).map (fun p => p.id) = minStr? ((l.filter P).map (fun p => p.id)) := by
  induction l with
  | nil => rfl
  | cons a as ih =>
    rw [List.pairwise_cons] at hs
    by_cases hP : P a = true
    · have hmin := minStr?_cons_of_min a.id ((as.filter P).map (fun p => p.id))
        (fun y hy => by
          obtain ⟨q, hq, rfl⟩ := List.mem_map.mp hy
          exact strLt_asymm (hs.1 q (List.mem_of_mem_filter hq)))
      rw [List.find?_cons_of_pos _ hP, List.filter_cons_of_pos hP, List.map_cons, hmin]
      rfl
    · rw [List.find?_cons_of_neg _ hP, List.filter_cons_of_neg (by simpa using hP)]
      exact ih hs.2

/-- Decomposition of the first-maximal fold: the picked element splits the
list into a strictly smaller prefix and a bounded remainder. -/
theorem foldl_pick_spec : ∀ (as : List Player) (a : Player),
    ∃ l1 l2, a :: as = l1 ++ (pickFold a as) :: l2 ∧
      (∀ q ∈ l1, q.score < (pickFold a as).score) ∧
      (∀ q ∈ a :: as, q.score ≤ (pickFold a as).score) := by
  intro as
  induction as with
  | nil =>
    intro a
    exact ⟨[], [], rfl, by simp, by simp [pickFold]⟩
  | cons y ys ih =>
    intro a
    have hstep : pickFold a (y :: ys) = pickFold (if a.score < y.score then y else a) ys := rfl
    by_cases ha : a.score < y.score
    · obtain ⟨l1, l2, hdec, hlt, hbound⟩ := ih y
      have hr : pickFold a (y :: ys) = pickFold y ys := by rw [hstep, if_pos ha]
      refine ⟨a :: l1, l2, ?_, ?_, ?_⟩
      · rw [hr, List.cons_append, ← hdec]
      · intro q hq
        rcases List.mem_cons.mp hq with rfl | hq2
        · rw [hr]
          exact lt_of_lt_of_le ha (hbound y (List.mem_cons_self _ _))
        · rw [hr]
          exact hlt q hq2
      · intro q hq
        rw [hr]
        rcases List.mem_cons.mp hq with rfl | hq2
        · exact le_of_lt (lt_of_lt_of_le ha (hbound y (List.mem_cons_self _ _)))
        · exact hbound q hq2
    · obtain ⟨l1, l2, hdec, hlt, hbound⟩ := ih a
      have hr : pickFold a (y :: ys) = pickFold a ys := by rw [hstep, if_neg ha]
      cases l1 with
      | nil =>
        rw [List.nil_append] at hdec
        injection hdec with hh ht
        refine ⟨[], y :: ys, ?_, by simp, ?_⟩
        · rw [hr, ← hh, List.nil_append]
        · intro q hq
          rw [hr]
          rcases List.mem_cons.mp hq with rfl | hq2
          · exact le_of_eq (by rw [← hh])
          · rcases List.mem_cons.mp hq2 with rfl | hq3
            · exact le_trans (le_of_not_lt ha) (le_of_eq (by rw [← hh]))
            · exact hbound q (List.mem_cons_of_mem _ hq3)
      | cons c l1' =>
        rw [List.cons_append] at hdec
        injection hdec with hh ht
        refine ⟨a :: y :: l1', l2, ?_, ?_, ?_⟩
        · rw [hr, List.cons_append, List.cons_append, ← ht]
        · intro q hq
          have hay : a.score < (pickFold a ys).score := by
            have h0 := hlt c (List.mem_cons_self _ _)
            rw [← hh] at h0
            exact h0
          rcases List.mem_cons.mp hq with rfl | hq2
          · rw [hr]; exact hay
          · rcases List.mem_cons.mp hq2 with rfl | hq3
            · rw [hr]
              exact lt_of_le_of_lt (le_of_not_lt ha) hay
            · rw [hr]
              exact hlt q (List.mem_cons_of_mem _ hq3)
        · intro q hq
          rw [hr]
          rcases List.mem_cons.mp hq with rfl | hq2
          · exact hbound _ (List.mem_cons_self _ _)
          · rcases List.mem_cons.mp hq2 with rfl | hq3
            · exact le_trans (le_of_not_lt ha) (hbound _ (List.mem_cons_self _ _))
            · exact hbound q (List.mem_cons_of_mem _ hq3)

/-- At the turn limit, the first maximal scorer of a sorted player list is
the lexicographically least among the maximal scorers. -/
theorem stage4_eq (al : List Player)
    (hs : List.Pairwise (fun a b => strLt a.id b.id = true) al) :
    firstMaxId al
      = minStr? ((al.filter (fun p => ∀ q ∈ al, q.score ≤ p.score)).map
          (fun p => p.id)) := by
  cases al with
  | nil => rfl
  | cons p ps =>
    show some (pickFold p ps).id = minStr? (((p :: ps).filter
        (fun x => ∀ q ∈ p :: ps, q.score ≤ x.score)).map (fun p => p.id))
    obtain ⟨l1, l2, hdec, hlt, hbound⟩ := foldl_pick_spec ps p
    rw [hdec] at hs hbound ⊢
    have hl1 : l1.filter
        (fun x => ∀ q ∈ l1 ++ pickFold p ps :: l2, q.score ≤ x.score) = [] := by
      rw [List.filter_eq_nil_iff]
      intro x hx
      simp only [decide_eq_true_eq]
      intro hall
      exact absurd (hall (pickFold p ps) (by simp)) (not_le.mpr (hlt x hx))
    have hfilter : (l1 ++ pickFold p ps :: l2).filter
        (fun x => ∀ q ∈ l1 ++ pickFold p ps :: l2, q.score ≤ x.score)
        = pickFold p ps :: l2.filter
            (fun x => ∀ q ∈ l1 ++ pickFold p ps :: l2, q.score ≤ x.score) := by
      have hposP : (fun x => decide (∀ q ∈ l1 ++ pickFold p ps :: l2,
          q.score ≤ x.score)) (pickFold p ps) = true :=
        decide_eq_true (fun q hq => hbound q hq)
      rw [List.filter_append, hl1, List.nil_append,
        @List.filter_cons_of_pos _ (fun x => decide (∀ q ∈ l1 ++ pickFold p ps :: l2,
          q.score ≤ x.score)) (pickFold p ps) l2 hposP]
    rw [hfilter, List.map_cons]
    have hpair := (List.pairwise_append.mp hs).2.1
    rw [List.pairwise_cons] at hpair
    exact (minStr?_cons_of_min _ _ (fun y hy => by
      obtain ⟨q, hq, rfl⟩ := List.mem_map.mp hy
      exact strLt_asymm (hpair.1 q (List.mem_of_mem_filter hq)))).symm

/-- Filtering a mapped list is mapping the composite filter. -/
theorem filter_map_general (l : List Player) (f : Player → Player) (P : Player → Bool) :
    (l.map f).filter P = (l.filter (fun p => P (f p))).map f := by
  induction l with
  | nil => rfl
  | cons p ps ih =>
    by_cases hp : P (f p) = true
    · rw [List.map_cons, List.filter_cons_of_pos hp,
        @List.filter_cons_of_pos _ (fun p => P (f p)) p ps hp, List.map_cons, ih]
    · rw [List.map_cons, List.filter_cons_of_neg (by simpa using hp),
        @List.filter_cons_of_neg _ (fun p => P (f p)) p ps (by simpa using hp), ih]

/-- C4: the victory check tests its conditions in the claimed fixed order
with the first match winning: sole survivor; domination at 15 or more
provinces; economy at 100 gold with an owned province; and at the turn
limit the score `3*provinces + units + gold/5 + 5*techs + 10*age`, highest
scorer first, ties broken by the lexicographically smallest player id;
otherwise no winner.  Stated for player lists sorted by id, the order the
engine constructs (p0, p1, ...). -/
theorem c4_victory_refinement (g : Game)
    (hsort : List.Pairwise (fun a b => strLt a.id b.id = true) g.players) :
    (g.checkVictory).2 = checkVictorySpec g := by
  have hal : List.Pairwise (fun a b => strLt a.id b.id = true)
      (g.players.filter (fun p => p.alive)) := hsort.filter _
  simp only [Game.checkVictory, checkVictorySpec]
  by_cases h1 : (g.players.filter (fun p => p.alive)).length = 1
  · rw [if_pos h1, if_pos h1]
  · rw [if_neg h1, if_neg h1]
    cases hfind2 : (g.players.filter (fun p => p.alive)).find?
        (fun p => 15 ≤ (g.playerProvinces p.id).length) with
    | some p =>
      have hmin := find?_id_eq_minStr_filter (g.players.filter (fun p => p.alive))
        (fun p => 15 ≤ (g.playerProvinces p.id).length) hal
      rw [hfind2] at hmin
      have hne : (g.players.filter (fun p => p.alive)).filter
          (fun p => 15 ≤ (g.playerProvinces p.id).length) ≠ [] := by
        intro h0
        rw [h0] at hmin
        simp [minStr?] at hmin
      rw [if_pos hne]
      exact hmin
    | none =>
      have hmin := find?_id_eq_minStr_filter (g.players.filter (fun p => p.alive))
        (fun p => 15 ≤ (g.playerProvinces p.id).length) hal
      rw [hfind2] at hmin
      have hdoms : (g.players.filter (fun p => p.alive)).filter
          (fun p => 15 ≤ (g.playerProvinces p.id).length) = [] := by
        cases hd : (g.players.filter (fun p => p.alive)).filter
            (fun p => 15 ≤ (g.playerProvinces p.id).length) with
        | nil => rfl
        | cons x xs =>
          rw [hd] at hmin
          simp [minStr?] at hmin
      rw [hdoms, if_neg (show ¬(([] : List Player) ≠ []) from fun h => h rfl)]
      have hc3 : ∀ q ∈ g.players.filter (fun p => p.alive),
          (fun p : Player => decide (100 ≤ p.gold ∧
            g.provinces.any (fun pr => pr.owner = some p.id) = true)) q
          = (fun p : Player => decide (100 ≤ p.gold ∧
            1 ≤ (g.playerProvinces p.id).length)) q := by
        intro q _
        apply decide_eq_decide.mpr
        constructor
        · rintro ⟨hg, hany⟩
          refine ⟨hg, ?_⟩
          obtain ⟨pr, hpr, hprq⟩ := List.any_eq_true.mp hany
          exact List.length_pos_of_mem
            (List.mem_filter.mpr ⟨hpr, hprq⟩)
        · rintro ⟨hg, hlen⟩
          refine ⟨hg, ?_⟩
          apply List.any_eq_true.mpr
          obtain ⟨pr, hpr⟩ := List.exists_mem_of_ne_nil _
            (List.length_pos.mp (lt_of_lt_of_le Nat.zero_lt_one hlen))
          exact ⟨pr, List.mem_of_mem_filter hpr, (List.mem_filter.mp hpr).2⟩
      rw [← List.filter_congr hc3]
      cases hfind3 : (g.players.filter (fun p => p.alive)).find?
          (fun p => 100 ≤ p.gold ∧
            g.provinces.any (fun pr => pr.owner = some p.id) = true) with
      | some p =>
        have hmin3 := find?_id_eq_minStr_filter (g.players.filter (fun p => p.alive))
          (fun p => 100 ≤ p.gold ∧
            g.provinces.any (fun pr => pr.owner = some p.id) = true) hal
        rw [hfind3] at hmin3
        have hne3 : (g.players.filter (fun p => p.alive)).filter
            (fun p => 100 ≤ p.gold ∧
              g.provinces.any (fun pr => pr.owner = some p.id) = true) ≠ [] := by
          intro h0
          rw [h0] at hmin3
          simp [minStr?] at hmin3
        rw [if_pos hne3]
        exact hmin3
      | none =>
        have hmin3 := find?_id_eq_minStr_filter (g.players.filter (fun p => p.alive))
          (fun p => 100 ≤ p.gold ∧
            g.provinces.any (fun pr => pr.owner = some p.id) = true) hal
        rw [hfind3] at hmin3
        have hecon : (g.players.filter (fun p => p.alive)).filter
            (fun p => 100 ≤ p.gold ∧
              g.provinces.any (fun pr => pr.owner = some p.id) = true) = [] := by
          cases hd : (g.players.filter (fun p => p.alive)).filter
              (fun p => 100 ≤ p.gold ∧
                g.provinces.any (fun pr => pr.owner = some p.id) = true) with
          | nil => rfl
          | cons x xs =>
            rw [hd] at hmin3
            simp [minStr?] at hmin3
        rw [hecon, if_neg (show ¬(([] : List Player) ≠ []) from fun h => h rfl)]
        by_cases hturn : g.maxTurns ≤ g.turn
        · rw [if_pos hturn, if_pos hturn]
          have hfid : ∀ p : Player,
              ((fun p : Player =>
                if p.alive then { p with score := g.victoryScore p } else p) p).id
                = p.id := by
            intro p
            dsimp only
            split <;> rfl
          have hfal : ∀ p : Player,
              ((fun p : Player =>
                if p.alive then { p with score := g.victoryScore p } else p) p).alive
                = p.alive := by
            intro p
            dsimp only
            split <;> rfl
          have hmemsc : ∀ q ∈ g.players.filter (fun p => p.alive),
              ((fun p : Player =>
                if p.alive then { p with score := g.victoryScore p } else p) q).score
                = g.victoryScore q := by
            intro q hq
            have hqal : q.alive = true := by
              simpa using (List.mem_filter.mp hq).2
            simp only [if_pos hqal]
          have hs1 : List.Pairwise (fun a b => strLt a.id b.id = true)
              ((g.players.map (fun p =>
                if p.alive then { p with score := g.victoryScore p } else p)).filter
                  (fun p => p.alive)) :=
            (hsort.map _ (fun a b h => by rw [hfid a, hfid b]; exact h)).filter _
          have hmix : (g.players.map (fun p =>
                if p.alive then { p with score := g.victoryScore p } else p)).filter
                  (fun p => p.alive)
              = (g.players.filter (fun p => p.alive)).map (fun p =>
                if p.alive then { p with score := g.victoryScore p } else p) := by
            rw [filter_map_general]
            exact congrArg _ (List.filter_congr (fun p _ => hfal p))
          refine (stage4_eq _ hs1).trans (congrArg minStr? ?_)
          rw [hmix, filter_map_general, List.map_map]
          refine (congrArg _ (List.filter_congr (fun p hp => ?_))).trans
            (List.map_congr_left (fun p _ => hfid p))
          dsimp only
          apply decide_eq_decide.mpr
          constructor
          · intro h q0 hq0
            have h2 := h _ (List.mem_map_of_mem _ hq0)
            rw [hmemsc q0 hq0] at h2
            rw [hmemsc p hp] at h2
            exact h2
          · intro h q hq
            obtain ⟨q0, hq0, rfl⟩ := List.mem_map.mp hq
            rw [hmemsc q0 hq0, hmemsc p hp]
            exact h q0 hq0
        · rw [if_neg hturn, if_neg hturn]

/-- C4 witness: the refinement applies to the concrete two-player game at
the turn limit, whose player list is sorted by id. -/
theorem c4_witness :
    (vcGame.checkVictory).2 = checkVictorySpec vcGame :=
  c4_victory_refinement vcGame (by decide)

/-- C10 witness: two chained move orders for the Scout along A - B - C land
it at C within one movement phase. -/
theorem c10_witness :
    (applyAllMoves cmGame
        [("p0", { playerId := "p0",
                  moves := ["B", "C"].map
                    (fun t => { unitId := cmUnit.id, target := t }) })]).findUnit
        cmUnit.id
      = some { cmUnit with province := ["B", "C"].getLastD cmUnit.province } :=
  c10_multi_step_moves cmGame "p0" cmUnit ["B", "C"] (by decide) (by rfl) (by rfl)
    (by rfl)

/-! Helper lemmas for resource non-negativity (claim C5): the player list
stays good (distinct ids, non-negative resources) through every phase of
`processTurn`. -/

theorem players_foldl_eq {α : Type} (f : Game → α → Game) (l : List α)
    (h : ∀ s a, (f s a).players = s.players) :
    ∀ g : Game, (l.foldl f g).players = g.players := by
  induction l with
  | nil => intro g; rfl
  | cons a as ih =>
    intro g
    rw [List.foldl_cons, ih, h]

theorem good_foldl {α : Type} (f : Game → α → Game) (l : List α)
    (h : ∀ s a, GoodPlayers s.players → GoodPlayers (f s a).players) :
    ∀ g : Game, GoodPlayers g.players → GoodPlayers (l.foldl f g).players := by
  induction l with
  | nil => intro g hg; exact hg
  | cons a as ih =>
    intro g hg
    exact ih _ (h g a hg)

theorem good_foldl_pair {α β : Type} (f : Game × β → α → Game × β) (l : List α)
    (h : ∀ s a, GoodPlayers s.1.players → GoodPlayers (f s a).1.players) :
    ∀ s : Game × β, GoodPlayers s.1.players → GoodPlayers (l.foldl f s).1.players := by
  induction l with
  | nil => intro s hs; exact hs
  | cons a as ih =>
    intro s hs
    exact ih _ (h s a hs)

theorem pay_nonneg (p : Player) (cost : R3) (h : p.canAfford cost = true) :
    R3.NonNeg (p.pay cost).resources := by
  have h' := of_decide_eq_true h
  obtain ⟨h1, h2, h3⟩ := h'
  exact ⟨Int.sub_nonneg.mpr h1, Int.sub_nonneg.mpr h2, Int.sub_nonneg.mpr h3⟩

theorem setPlayer_good (g : Game) (pid : String) (f : Player → Player)
    (hid : ∀ p, (f p).id = p.id)
    (hres : ∀ p ∈ g.players, p.id = pid → R3.NonNeg p.resources →
      R3.NonNeg (f p).resources)
    (h : GoodPlayers g.players) : GoodPlayers (g.setPlayer pid f).players := by
  obtain ⟨hnd, hnn⟩ := h
  constructor
  · have he : (g.players.map (fun p => if p.id = pid then f p else p)).map
        (fun p => p.id) = g.players.map (fun p => p.id) := by
      rw [List.map_map]
      apply List.map_congr_left
      intro p _
      simp only [Function.comp]
      by_cases hp : p.id = pid
      · rw [if_pos hp]; exact hid p
      · rw [if_neg hp]
    rw [Game.setPlayer]
    rw [he]
    exact hnd
  · intro p hp
    simp only [Game.setPlayer, List.mem_map] at hp
    obtain ⟨q, hq, rfl⟩ := hp
    by_cases hqid : q.id = pid
    · rw [if_pos hqid]
      exact hres q hq hqid (hnn q hq)
    · rw [if_neg hqid]
      exact hnn q hq

theorem getPlayer_unique (g : Game) (pid : String) (player : Player)
    (hnd : (g.players.map (fun p => p.id)).Nodup)
    (hfind : g.getPlayer pid = some player) :
    ∀ p ∈ g.players, p.id = pid → p = player := by
  intro p hp hpid
  have hfind' : g.players.find? (fun p => p.id = pid) = some player := hfind
  have hmem := List.mem_of_find?_eq_some hfind'
  have hpl0 := List.find?_some hfind'
  have hpl : player.id = pid := by simpa using hpl0
  exact List.inj_on_of_nodup_map hnd hp hmem (by rw [hpid, hpl])

theorem addGoldTo_good (pid : String) (gain : Int) (ps : List Player)
    (hg : 0 ≤ gain) (h : GoodPlayers ps) : GoodPlayers (addGoldTo pid gain ps) := by
  obtain ⟨hnd, hnn⟩ := h
  constructor
  · have he : (addGoldTo pid gain ps).map (fun p => p.id)
        = ps.map (fun p => p.id) := by
      rw [addGoldTo, List.map_map]
      apply List.map_congr_left
      intro p _
      simp only [Function.comp]
      by_cases hp : p.id = pid
      · rw [if_pos hp]
      · rw [if_neg hp]
    rw [he]
    exact hnd
  · intro p hp
    simp only [addGoldTo, List.mem_map] at hp
    obtain ⟨q, hq, rfl⟩ := hp
    obtain ⟨h1, h2, h3⟩ := hnn q hq
    by_cases hqid : q.id = pid
    · rw [if_pos hqid]
      exact ⟨h1, h2, Int.add_nonneg h3 hg⟩
    · rw [if_neg hqid]
      exact ⟨h1, h2, h3⟩

theorem players_acceptScan (t : Game) (pid tpId : String) :
    (acceptScan t pid tpId).players = t.players := by
  unfold acceptScan
  apply players_foldl_eq
  intro s i
  cases s.proposals[i]? with
  | none => rfl
  | some tp =>
    dsimp only
    split <;> rfl

theorem players_rejectScan (t : Game) (pid tpId : String) :
    (rejectScan t pid tpId).players = t.players := by
  unfold rejectScan
  apply players_foldl_eq
  intro s i
  cases s.proposals[i]? with
  | none => rfl
  | some tp =>
    dsimp only
    split <;> rfl

theorem players_breakScan (t : Game) (pid tId : String) :
    (breakScan t pid tId).players = t.players := by
  unfold breakScan
  apply players_foldl_eq
  intro s i
  cases s.treaties[i]? with
  | none => rfl
  | some tr =>
    dsimp only
    split <;> rfl

theorem players_diplomacyFor (s : Game) (pid : String) (d : DiplomacyOrder) :
    (diplomacyFor s pid d).players = s.players := by
  simp only [diplomacyFor]
  refine ((players_foldl_eq _ _ (fun t a => players_breakScan t pid a) _).trans ?_)
  refine ((players_foldl_eq _ _ (fun t a => players_rejectScan t pid a) _).trans ?_)
  refine ((players_foldl_eq _ _ (fun t a => players_acceptScan t pid a) _).trans ?_)
  refine ((players_foldl_eq _ _ ?_ _).trans ?_)
  · intro t pr
    dsimp only
    split
    · rfl
    · cases parseTreatyType pr.2 <;> rfl
  · refine players_foldl_eq _ _ ?_ s
    intro t m
    rfl

theorem players_processDiplomacy (g : Game) (orders : List (String × Orders)) :
    (g.processDiplomacy orders).players = g.players := by
  unfold Game.processDiplomacy
  apply players_foldl_eq
  intro s kv
  cases kv.2.diplomacy with
  | none => rfl
  | some d => exact players_diplomacyFor s kv.1 d

theorem players_applyMove (g : Game) (pid : String) (mv : MoveOrder) :
    (applyMove g pid mv).players = g.players := by
  simp only [applyMove]
  cases g.findUnit mv.unitId with
  | none => rfl
  | some u =>
    dsimp only
    split
    · rfl
    · cases g.getProv u.province <;> cases g.getProv mv.target <;> dsimp only
      all_goals try rfl
      all_goals (repeat' split) <;> rfl

theorem players_applyAllMoves (g : Game) (orders : List (String × Orders)) :
    (applyAllMoves g orders).players = g.players := by
  unfold applyAllMoves
  apply players_foldl_eq
  intro s kv
  unfold applyPlayerMoves
  apply players_foldl_eq
  intro t mv
  exact players_applyMove t kv.1 mv

theorem players_tradeRouteStep (s : Game) (pid : String) (o : TradeRouteOrder) :
    (tradeRouteStep s pid o).players = s.players := by
  simp only [tradeRouteStep]
  cases s.getProv o.fromProvince <;> cases s.getProv o.toProvince <;> dsimp only
  all_goals try rfl
  all_goals (repeat' split) <;> rfl

theorem players_processTradeRoutes (g : Game) (orders : List (String × Orders)) :
    (g.processTradeRoutes orders).players = g.players := by
  unfold Game.processTradeRoutes
  apply players_foldl_eq
  intro s kv
  cases s.getPlayer kv.1 with
  | none => rfl
  | some player =>
    dsimp only
    split
    · rfl
    · apply players_foldl_eq
      intro t o
      exact players_tradeRouteStep t kv.1 o

theorem good_processResearchFor (s : Game) (pid : String) (o : Orders)
    (h : GoodPlayers s.players) : GoodPlayers (processResearchFor s pid o).players := by
  simp only [processResearchFor]
  cases hgp : s.getPlayer pid with
  | none => cases o.research <;> exact h
  | some player =>
    cases o.research with
    | none => exact h
    | some r =>
      dsimp only
      split
      · exact h
      · split
        · split
          · exact h
          · split
            · exact h
            · rename_i hnaff
              refine setPlayer_good _ _ _ (fun p => rfl) ?_ h
              intro p hp hpid _
              have hpe := getPlayer_unique s pid player h.1 hgp p hp hpid
              subst hpe
              exact pay_nonneg p _ (not_not.mp hnaff)
        · cases parseTechId r.tech with
          | none => exact h
          | some tech =>
            dsimp only
            split
            · exact h
            · split
              · exact h
              · rename_i hnaff
                refine setPlayer_good _ _ _ (fun p => rfl) ?_ h
                intro p hp hpid _
                have hpe := getPlayer_unique s pid player h.1 hgp p hp hpid
                subst hpe
                exact pay_nonneg p _ (not_not.mp hnaff)

theorem good_processResearch (g : Game) (orders : List (String × Orders))
    (h : GoodPlayers g.players) : GoodPlayers (g.processResearch orders).players := by
  unfold Game.processResearch
  exact good_foldl _ _ (fun s kv hs => good_processResearchFor s kv.1 kv.2 hs) g h

theorem good_buildUnitStep (s : Game) (pid : String) (b : BuildUnitOrder)
    (h : GoodPlayers s.players) : GoodPlayers (buildUnitStep s pid b).players := by
  simp only [buildUnitStep]
  cases hgp : s.getPlayer pid with
  | none => cases s.getProv b.province <;> exact h
  | some player =>
    cases s.getProv b.province with
    | none => exact h
    | some prov =>
      dsimp only
      split
      · exact h
      · split
        · cases CIV_UNIQUE_UNIT player.civ with
          | none => exact h
          | some utype =>
            dsimp only
            split
            · exact h
            · split
              · exact h
              · rename_i hnaff
                refine setPlayer_good _ _ _ (fun p => rfl) ?_ h
                intro p hp hpid _
                have hpe := getPlayer_unique s pid player h.1 hgp p hp hpid
                subst hpe
                exact pay_nonneg p _ (not_not.mp hnaff)
        · cases parseUnitType b.unitType with
          | none => exact h
          | some utype =>
            dsimp only
            split
            · exact h
            · split
              all_goals
                split
                · exact h
                · rename_i hnaff
                  refine setPlayer_good _ _ _ (fun p => rfl) ?_ h
                  intro p hp hpid _
                  have hpe := getPlayer_unique s pid player h.1 hgp p hp hpid
                  subst hpe
                  exact pay_nonneg p _ (not_not.mp hnaff)

theorem good_buildBuildingStep (s : Game) (pid : String) (b : BuildBuildingOrder)
    (h : GoodPlayers s.players) : GoodPlayers (buildBuildingStep s pid b).players := by
  simp only [buildBuildingStep]
  cases hgp : s.getPlayer pid with
  | none => cases s.getProv b.province <;> exact h
  | some player =>
    cases s.getProv b.province with
    | none => exact h
    | some prov =>
      dsimp only
      split
      · exact h
      · cases parseBuildingType b.buildingType with
        | none => exact h
        | some btype =>
          dsimp only
          split
          · exact h
          · split
            · exact h
            · split
              · exact h
              · rename_i hnaff
                refine setPlayer_good _ _ _ (fun p => rfl) ?_ h
                intro p hp hpid _
                have hpe := getPlayer_unique s pid player h.1 hgp p hp hpid
                subst hpe
                exact pay_nonneg p _ (not_not.mp hnaff)

theorem good_processBuildsFor (s : Game) (pid : String) (o : Orders)
    (h : GoodPlayers s.players) : GoodPlayers (processBuildsFor s pid o).players := by
  simp only [processBuildsFor]
  cases s.getPlayer pid with
  | none => exact h
  | some player =>
    dsimp only
    split
    · exact h
    · refine good_foldl _ _ (fun t bb hb => good_buildBuildingStep t pid bb hb) _ ?_
      exact good_foldl _ _ (fun t bu hb => good_buildUnitStep t pid bu hb) s h

theorem good_processBuilds (g : Game) (orders : List (String × Orders))
    (h : GoodPlayers g.players) : GoodPlayers (g.processBuilds orders).players := by
  unfold Game.processBuilds
  exact good_foldl _ _ (fun s kv hs => good_processBuildsFor s kv.1 kv.2 hs) g h

theorem good_resolveCombat (players : List Player) (prov : Province)
    (x : Province × List Player × CombatResult)
    (h : resolveCombat players prov = some x)
    (hg : GoodPlayers players) : GoodPlayers x.2.1 := by
  simp only [resolveCombat] at h
  split at h
  · exact absurd h (by simp)
  · simp only [Option.some.injEq] at h
    subst h
    dsimp only
    split
    · exact addGoldTo_good _ _ _ (by positivity) hg
    · exact hg

theorem good_resolveAllCombats (g : Game) (h : GoodPlayers g.players) :
    GoodPlayers (resolveAllCombats g).1.players := by
  unfold resolveAllCombats
  refine good_foldl_pair _ _ ?_ (g, []) h
  intro s pid hs
  cases s.1.getProv pid with
  | none => exact hs
  | some prov =>
    dsimp only
    cases hrc : resolveCombat s.1.players prov with
    | none => exact hs
    | some x =>
      obtain ⟨prov1, players1, res⟩ := x
      dsimp only
      exact good_resolveCombat s.1.players prov (prov1, players1, res) hrc hs

theorem good_processMoves (g : Game) (orders : List (String × Orders))
    (h : GoodPlayers g.players) : GoodPlayers (g.processMoves orders).1.players := by
  unfold Game.processMoves
  apply good_resolveAllCombats
  rw [players_applyAllMoves]
  exact h

theorem good_collectFor (s : Game) (pid : String) (h : GoodPlayers s.players) :
    GoodPlayers (collectFor s pid).players := by
  simp only [collectFor]
  cases s.getPlayer pid with
  | none => exact h
  | some player =>
    dsimp only
    split
    · exact h
    · cases htr : s.calcTradeIncome pid with
      | mk tradeGold routes =>
        dsimp only
        refine setPlayer_good _ _ _ (fun p => rfl) ?_ h
        intro p _ _ _
        exact ⟨le_max_left 0 _, le_max_left 0 _, le_max_left 0 _⟩

theorem good_collectResources (g : Game) (h : GoodPlayers g.players) :
    GoodPlayers g.collectResources.players := by
  unfold Game.collectResources
  exact good_foldl _ _ (fun s a hs => good_collectFor s a hs) g h

theorem good_checkEliminations (g : Game) (h : GoodPlayers g.players) :
    GoodPlayers (g.checkEliminations).1.players := by
  unfold Game.checkEliminations
  refine good_foldl_pair _ _ ?_ (g, []) h
  intro s pid hs
  cases s.1.getPlayer pid with
  | none => exact hs
  | some player =>
    dsimp only
    split
    · exact hs
    · split
      · exact setPlayer_good _ _ _ (fun p => rfl) (fun p _ _ hres => hres) hs
      · exact hs

theorem good_checkVictory (g : Game) (h : GoodPlayers g.players) :
    GoodPlayers (g.checkVictory).1.players := by
  simp only [Game.checkVictory]
  split
  · exact h
  · cases (g.players.filter (fun p => p.alive)).find?
        (fun p => 15 ≤ (g.playerProvinces p.id).length) with
    | some p => exact h
    | none =>
      dsimp only
      cases (g.players.filter (fun p => p.alive)).find?
          (fun p => 100 ≤ p.gold ∧ g.provinces.any (fun pr => pr.owner = some p.id)) with
      | some p => exact h
      | none =>
        dsimp only
        split
        · refine ⟨?_, ?_⟩
          · have he : (g.players.map (fun p =>
                if p.alive then { p with score := g.victoryScore p } else p)).map
                  (fun p => p.id)
                = g.players.map (fun p => p.id) := by
              rw [List.map_map]
              apply List.map_congr_left
              intro p _
              simp only [Function.comp]
              split <;> rfl
            rw [he]
            exact h.1
          · intro p hp
            obtain ⟨q, hq, hpe⟩ := List.mem_map.mp hp
            obtain ⟨h1, h2, h3⟩ := h.2 q hq
            rw [← hpe]
            split
            · exact ⟨h1, h2, h3⟩
            · exact ⟨h1, h2, h3⟩
        · exact h

theorem good_processTurn (g : Game) (orders : List (String × Orders))
    (h : GoodPlayers g.players) : GoodPlayers (g.processTurn orders).players := by
  simp only [Game.processTurn]
  split <;>
    (apply good_checkVictory
     apply good_checkEliminations
     apply good_collectResources
     rw [players_processTradeRoutes]
     apply good_processBuilds
     apply good_processMoves
     apply good_processResearch
     rw [players_processDiplomacy]
     exact h)

/-- C5: for every game state with distinct player ids (Python stores players
in a dict keyed by id) in which every player's food, iron and gold are
non-negative, and every order set, after `processTurn` every player's food,
iron and gold are still non-negative: resource collection clamps each
component at 0, every debit (research, age-up, unit and building builds) is
guarded by an affordability check, and combat only credits gold. -/
theorem c5_resource_nonneg (g : Game) (orders : List (String × Orders))
    (hnd : (g.players.map (fun p => p.id)).Nodup)
    (hnn : ∀ p ∈ g.players, R3.NonNeg p.resources) :
    ∀ p ∈ (g.processTurn orders).players, R3.NonNeg p.resources :=
  (good_processTurn g orders ⟨hnd, hnn⟩).2

/-- C5 witness: the non-negativity invariant applied to the concrete
two-player game on an empty order set. -/
theorem c5_witness :
    ((vcGame.processTurn []).players.all
      (fun p => decide (R3.NonNeg p.resources))) = true := by
  have h := c5_resource_nonneg vcGame [] (by decide) (by decide)
  exact List.all_eq_true.mpr (fun p hp => decide_eq_true (h p hp))

/-! Helper lemmas for the multiplayer Elo update (claim C9). -/

theorem enumFrom_find?_eq (l : List String) :
    ∀ (_ : l.Nodup) (k i : Nat) (hi : i < l.length),
      (List.enumFrom k l).find? (fun ip => ip.2 = l[i]) = some (k + i, l[i]) := by
  induction l with
  | nil => intro _ k i hi; exact absurd hi (by simp)
  | cons a t ih =>
    intro hnd k i hi
    obtain ⟨hna, hndt⟩ := List.nodup_cons.mp hnd
    cases i with
    | zero =>
      simp only [List.enumFrom, List.getElem_cons_zero]
      rw [List.find?_cons_of_pos _ (by simp)]
      simp
    | succ j =>
      have hj : j < t.length := by simpa using hi
      simp only [List.enumFrom, List.getElem_cons_succ]
      rw [List.find?_cons_of_neg _ ?hne]
      case hne =>
        simp only [decide_eq_true_eq]
        intro hh
        exact hna (hh ▸ List.getElem_mem hj)
      rw [ih hndt (k + 1) j hj]
      congr 1
      apply Prod.ext
      · simp
        omega
      · rfl

theorem totals_spec_aux (es : Int → Int → ℝ) (ra : Int) (ratings : String → Int) (i : Nat) :
    ∀ (l : List (Nat × String)) (a b : ℝ),
      l.foldl (fun (acc : ℝ × ℝ) jp =>
          if i = jp.1 then acc
          else (acc.1 + es ra (ratings jp.2), acc.2 + if i < jp.1 then 1 else 0)) (a, b)
        = (a + ((l.filter (fun jp => ¬ i = jp.1)).map
              (fun jp => es ra (ratings jp.2))).sum,
           b + ((l.filter (fun jp => i < jp.1)).length : ℝ)) := by
  intro l
  induction l with
  | nil =>
    intro a b
    simp
  | cons jp t ih =>
    intro a b
    rw [List.foldl_cons]
    by_cases hj : i = jp.1
    · dsimp only
      rw [if_pos hj, ih, List.filter_cons, List.filter_cons]
      rw [if_neg (by simp [hj]), if_neg (by simp [hj])]
    · dsimp only
      rw [if_neg hj, ih, List.filter_cons, List.filter_cons]
      rw [if_pos (decide_eq_true hj)]
      by_cases hlt : i < jp.1
      · rw [if_pos hlt, if_pos (decide_eq_true hlt)]
        simp only [List.map_cons, List.sum_cons, List.length_cons, Prod.mk.injEq]
        constructor
        · ring
        · push_cast
          ring
      · rw [if_neg hlt, if_neg (by simpa using hlt)]
        simp only [List.map_cons, List.sum_cons, Prod.mk.injEq]
        constructor
        · ring
        · ring

theorem mem_ensureProfiles_mono (placements : List String) :
    ∀ (rks : List AgentProfile) (q : AgentProfile), q ∈ rks →
      q ∈ ensureProfiles rks placements := by
  induction placements with
  | nil => intro rks q hq; exact hq
  | cons a t ih =>
    intro rks q hq
    unfold ensureProfiles
    rw [List.foldl_cons]
    apply ih
    dsimp only
    split
    · exact hq
    · exact List.mem_append_left _ hq

theorem ensureProfiles_has (placements : List String) :
    ∀ (rks : List AgentProfile) (pid : String), pid ∈ placements →
      ∃ q ∈ ensureProfiles rks placements, q.agentId = pid := by
  induction placements with
  | nil => intro rks pid h; exact absurd h (by simp)
  | cons a t ih =>
    intro rks pid h
    unfold ensureProfiles
    rw [List.foldl_cons]
    rcases List.mem_cons.mp h with rfl | hmem
    · by_cases hany : rks.any (fun p => p.agentId = pid) = true
      · obtain ⟨w, hw, hwa⟩ := List.any_eq_true.mp hany
        refine ⟨w, ?_, of_decide_eq_true hwa⟩
        apply mem_ensureProfiles_mono
        dsimp only
        rw [if_pos hany]
        exact hw
      · refine ⟨{ agentId := pid }, ?_, rfl⟩
        apply mem_ensureProfiles_mono
        dsimp only
        rw [if_neg hany]
        exact List.mem_append_right _ (by simp)
    · exact ih _ pid hmem

theorem ensureProfiles_ok (placements : List String) :
    ∀ rks, (∀ p ∈ rks, 100 ≤ p.rating ∧ p.rating ≤ p.peakRating) →
      ∀ p ∈ ensureProfiles rks placements,
        100 ≤ p.rating ∧ p.rating ≤ p.peakRating := by
  induction placements with
  | nil => intro rks h p hp; exact h p hp
  | cons a t ih =>
    intro rks h
    unfold ensureProfiles
    rw [List.foldl_cons]
    apply ih
    dsimp only
    split
    · exact h
    · intro p hp
      rcases List.mem_append.mp hp with hp1 | hp2
      · exact h p hp1
      · have : p = { agentId := a } := by simpa using hp2
        subst this
        exact ⟨by norm_num, by norm_num⟩

/-- C9: with distinct placements of at least two players, the Elo update
sets the rating of the player placed at position i to
`max(100, round(R_i + 32*(actual_i - expected_i)/(n-1)))`, where
`expected_i` sums the expected scores against every opponent and
`actual_i` counts the players placed below position i; consequently every
updated rating is at least 100 and never exceeds the peak rating. -/
theorem c9_elo_update (rankings : List AgentProfile) (placements : List String)
    (hnd : placements.Nodup) (hn : 2 ≤ placements.length)
    (hok : ∀ p ∈ rankings, 100 ≤ p.rating ∧ p.rating ≤ p.peakRating) :
    (∀ q ∈ updateMultiplayerElo expectedScore rankings placements,
        100 ≤ q.rating ∧ q.rating ≤ q.peakRating) ∧
    (∀ (i : Nat) (hi : i < placements.length),
      (∃ q ∈ updateMultiplayerElo expectedScore rankings placements,
          q.agentId = placements[i]) ∧
      (∀ q ∈ updateMultiplayerElo expectedScore rankings placements,
          q.agentId = placements[i] →
          q.rating = max 100 (round
            ((ratingOf (ensureProfiles rankings placements) placements[i] : ℝ)
              + 32 * (((placements.enum.filter (fun jp => i < jp.1)).length : ℝ)
                  - ((placements.enum.filter (fun jp => ¬ i = jp.1)).map
                      (fun jp => expectedScore
                        (ratingOf (ensureProfiles rankings placements) placements[i])
                        (ratingOf (ensureProfiles rankings placements) jp.2))).sum)
                / ((placements.length : ℝ) - 1))))) := by
  cases placements with
  | nil => simp at hn
  | cons w rest =>
    constructor
    · intro q hq
      simp only [updateMultiplayerElo] at hq
      obtain ⟨p1, hp1, rfl⟩ := List.mem_map.mp hq
      obtain ⟨p, hp, rfl⟩ := List.mem_map.mp hp1
      have hbase := ensureProfiles_ok (w :: rest) rankings hok p hp
      cases ((w :: rest).enum.find? (fun ip => ip.2 = p.agentId)) with
      | none =>
        dsimp only [Option.map]
        split
        · exact hbase
        · split
          · exact hbase
          · exact hbase
      | some ipr =>
        dsimp only [Option.map]
        simp only [newRatingFor]
        split
        · exact ⟨le_max_left _ _, le_max_right _ _⟩
        · split
          · exact ⟨le_max_left _ _, le_max_right _ _⟩
          · exact ⟨le_max_left _ _, le_max_right _ _⟩
    · intro i hi
      constructor
      · obtain ⟨p, hp, hpa⟩ := ensureProfiles_has (w :: rest) rankings ((w :: rest)[i])
          (List.getElem_mem hi)
        simp only [updateMultiplayerElo]
        refine ⟨_, List.mem_map_of_mem _ (List.mem_map_of_mem _ hp), ?_⟩
        dsimp only
        cases ((w :: rest).enum.find? (fun ip => ip.2 = p.agentId)) <;>
          dsimp only [Option.map] <;>
          (split
           · exact hpa
           · split
             · exact hpa
             · exact hpa)
      · intro q hq hqa
        simp only [updateMultiplayerElo] at hq
        obtain ⟨p1, hp1, rfl⟩ := List.mem_map.mp hq
        obtain ⟨p, hp, rfl⟩ := List.mem_map.mp hp1
        cases hfind : ((w :: rest).enum.find? (fun ip => ip.2 = p.agentId)) with
        | none =>
          exfalso
          rw [hfind] at hqa
          dsimp only [Option.map] at hqa
          have hqa' : p.agentId = (w :: rest)[i] := by
            revert hqa
            split
            · intro h; exact h
            · split
              · intro h; exact h
              · intro h; exact h
          have hmem : (i, (w :: rest)[i]) ∈ (w :: rest).enum := by
            rw [List.mk_mem_enum_iff_getElem?]
            exact List.getElem?_eq_getElem hi
          have hnp := List.find?_eq_none.mp hfind _ hmem
          exact hnp (by simpa using hqa'.symm)
        | some ipr =>
          rw [hfind] at hqa
          dsimp only [Option.map] at hqa ⊢
          have hqa' : p.agentId = (w :: rest)[i] := by
            revert hqa
            split
            · intro h; exact h
            · split
              · intro h; exact h
              · intro h; exact h
          rw [hqa'] at hfind
          have hfix := enumFrom_find?_eq (w :: rest) hnd 0 i hi
          have henum : (w :: rest).enum = List.enumFrom 0 (w :: rest) := rfl
          rw [← henum, Nat.zero_add] at hfix
          rw [hfix] at hfind
          have hipr : ipr.1 = i := by
            have := Option.some.inj hfind
            rw [← this]
          split
          · dsimp only
            rw [hipr, hqa']
            simp only [newRatingFor, totalsFor]
            rw [totals_spec_aux]
            simp only [zero_add]
          · split
            · dsimp only
              rw [hipr, hqa']
              simp only [newRatingFor, totalsFor]
              rw [totals_spec_aux]
              simp only [zero_add]
            · dsimp only
              rw [hipr, hqa']
              simp only [newRatingFor, totalsFor]
              rw [totals_spec_aux]
              simp only [zero_add]

/-- C9 witness: the Elo update bounds applied to a two-player match on an
empty rankings table. -/
theorem c9_witness :
    ((updateMultiplayerElo expectedScore [] ["a", "b"]).all
      (fun q => decide (100 ≤ q.rating ∧ q.rating ≤ q.peakRating))) = true := by
  have h := (c9_elo_update [] ["a", "b"] (by decide) (by decide) (by simp)).1
  exact List.all_eq_true.mpr (fun q hq => decide_eq_true (h q hq))

/-! Helper lemmas for fog noninterference (claim C2). -/

theorem fogpair_filter_owner (g : Game) (pid : String) :
    ∀ {ps ps' : List Province}, List.Forall₂ (FogPairOK g pid) ps ps' →
      ps.filter (fun p => p.owner = some pid)
        = ps'.filter (fun p => p.owner = some pid) := by
  intro ps ps' hf
  induction hf with
  | nil => rfl
  | cons hR hrest ih =>
    rename_i pr pr' t t'
    obtain ⟨hid, hadj, hcond⟩ := hR
    rw [List.filter_cons, List.filter_cons]
    by_cases hv : g.isVisible pid pr.id = true
    · rw [if_pos hv] at hcond
      subst hcond
      rw [ih]
    · rw [if_neg hv] at hcond
      obtain ⟨ho, ho', _⟩ := hcond
      rw [if_neg (by simpa using ho), if_neg (by simpa using ho'), ih]

theorem fogpair_adjacentOf (g : Game) (pid : String) :
    ∀ {ps ps' : List Province}, List.Forall₂ (FogPairOK g pid) ps ps' →
      ∀ x, adjacentOf ps x = adjacentOf ps' x := by
  intro ps ps' hf
  induction hf with
  | nil => intro x; rfl
  | cons hR hrest ih =>
    rename_i pr pr' t t'
    obtain ⟨hid, hadj, _⟩ := hR
    intro x
    unfold adjacentOf
    by_cases hx : pr.id = x
    · rw [List.find?_cons_of_pos _ (by simpa using hx),
        List.find?_cons_of_pos _ (by simp [← hid, hx])]
      exact hadj
    · rw [List.find?_cons_of_neg _ (by simpa using hx),
        List.find?_cons_of_neg _ (by simp [← hid, hx])]
      exact ih x

theorem fogpair_pv (g g' : Game) (pid : String) (player : Player)
    (hvis : ∀ q, g.isVisible pid q = g'.isVisible pid q)
    (hpe : ∀ pr, provEntry g pid player pr = provEntry g' pid player pr) :
    ∀ {ps ps' : List Province}, List.Forall₂ (FogPairOK g pid) ps ps' →
      (ps.filter (fun prov => g.isVisible pid prov.id)).map
          (fun prov => (prov.id, provEntry g pid player prov))
        = (ps'.filter (fun prov => g'.isVisible pid prov.id)).map
          (fun prov => (prov.id, provEntry g' pid player prov)) := by
  intro ps ps' hf
  induction hf with
  | nil => rfl
  | cons hR hrest ih =>
    rename_i pr pr' t t'
    obtain ⟨hid, hadj, hcond⟩ := hR
    rw [List.filter_cons, List.filter_cons]
    by_cases hv : g.isVisible pid pr.id = true
    · have hv' : g'.isVisible pid pr'.id = true := by
        rw [← hid, ← hvis]
        exact hv
      rw [if_pos hv] at hcond
      subst hcond
      rw [if_pos hv, if_pos hv', List.map_cons, List.map_cons, ih, hpe pr]
    · have hv' : ¬ g'.isVisible pid pr'.id = true := by
        rw [← hid, ← hvis]
        exact hv
      rw [if_neg hv, if_neg hv', ih]

theorem fogpair_fog (g g' : Game) (pid : String)
    (hvis : ∀ q, g.isVisible pid q = g'.isVisible pid q) :
    ∀ {ps ps' : List Province}, List.Forall₂ (FogPairOK g pid) ps ps' →
      (ps.filter (fun prov => ¬ g.isVisible pid prov.id)).map (fun p => p.id)
        = (ps'.filter (fun prov => ¬ g'.isVisible pid prov.id)).map
          (fun p => p.id) := by
  intro ps ps' hf
  induction hf with
  | nil => rfl
  | cons hR hrest ih =>
    rename_i pr pr' t t'
    obtain ⟨hid, hadj, hcond⟩ := hR
    rw [List.filter_cons, List.filter_cons]
    by_cases hv : g.isVisible pid pr.id = true
    · have hv' : g'.isVisible pid pr'.id = true := by
        rw [← hid, ← hvis]
        exact hv
      rw [if_neg (by simpa using hv), if_neg (by simpa using hv'), ih]
    · have hv' : ¬ g'.isVisible pid pr'.id = true := by
        rw [← hid, ← hvis]
        exact hv
      rw [if_pos (by simpa using hv), if_pos (by simpa using hv'),
        List.map_cons, List.map_cons, ih, hid]

theorem fogpair_units (g : Game) (pid : String) :
    ∀ {ps ps' : List Province}, List.Forall₂ (FogPairOK g pid) ps ps' →
      (ps.map (fun prov =>
          (prov.units.filter (fun u => u.owner = pid)).map
            (fun u => ({ id := u.id, type := unitTypeName u.type,
                         province := prov.id, strength := u.strength,
                         veteran := u.veteran } : UnitEntry)))).flatten
        = (ps'.map (fun prov =>
            (prov.units.filter (fun u => u.owner = pid)).map
              (fun u => ({ id := u.id, type := unitTypeName u.type,
                           province := prov.id, strength := u.strength,
                           veteran := u.veteran } : UnitEntry)))).flatten := by
  intro ps ps' hf
  induction hf with
  | nil => rfl
  | cons hR hrest ih =>
    rename_i pr pr' t t'
    obtain ⟨hid, hadj, hcond⟩ := hR
    rw [List.map_cons, List.map_cons, List.flatten_cons, List.flatten_cons, ih]
    by_cases hv : g.isVisible pid pr.id = true
    · rw [if_pos hv] at hcond
      subst hcond
      rfl
    · rw [if_neg hv] at hcond
      obtain ⟨_, _, hu⟩ := hcond
      rw [hu, hid]

/-- C2 counterexample: `c2gB` differs from `c2gA` only in the units of
province C, which is fogged for p0 in both states, yet p0's projections of
the two states differ (p0's own Scout in the fogged province appears in the
view's `units` list with its position), so the claimed noninterference
fails. -/
theorem c2_counterexample_fog_leak :
    (c2gB.provinces = c2gA.provinces.map
        (fun pr => if pr.id = "C" then { pr with units := [] } else pr) ∧
      { c2gB with provinces := c2gA.provinces } = c2gA ∧
      c2gA.isVisible "p0" "C" = false ∧ c2gB.isVisible "p0" "C" = false) ∧
      c2gA.getPlayerView "p0" ≠ c2gB.getPlayerView "p0" := by
  exact ⟨⟨by decide, by decide, by decide, by decide⟩, by decide⟩

/-- C2 amended: the projection is noninterfering for every hidden attribute
except the viewer's own units: two states whose non-province data agree and
whose province lists agree on ids and adjacency, agree fully on provinces
visible to `pid`, and differ on fogged provinces at most in terrain, owner
(not the viewer), buildings and units not owned by the viewer, produce
identical player views. -/
theorem c2_amended_fog_noninterference (g g' : Game) (pid : String)
    (h : DiffOnlyFogged g g' pid) :
    g.getPlayerView pid = g'.getPlayerView pid := by
  obtain ⟨hpl, htr, hmsg, htrt, hprop, htp, hturn, hf⟩ := h
  have hpp : g.playerProvinces pid = g'.playerProvinces pid :=
    fogpair_filter_owner g pid hf
  have hadjf : adjacentOf g.provinces = adjacentOf g'.provinces :=
    funext (fogpair_adjacentOf g pid hf)
  have hvis : ∀ q, g.isVisible pid q = g'.isVisible pid q := by
    intro q
    rw [Game.isVisible, Game.isVisible, ← hadjf, ← hpp]
  have hgp : g.getPlayer pid = g'.getPlayer pid := by
    rw [Game.getPlayer, Game.getPlayer, hpl]
  have howned : g.ownedIds pid = g'.ownedIds pid := by
    rw [Game.ownedIds, Game.ownedIds, hpp]
  have hpe : ∀ (player : Player) (pr : Province),
      provEntry g pid player pr = provEntry g' pid player pr := by
    intro player pr
    unfold provEntry
    rw [howned]
  have hdiplo : g.getDiplomacyForPlayer pid = g'.getDiplomacyForPlayer pid := by
    unfold Game.getDiplomacyForPlayer
    rw [hmsg, hturn, hprop, htrt, hpl, htp]
  have hunits : g.getPlayerUnitsList pid = g'.getPlayerUnitsList pid := by
    unfold Game.getPlayerUnitsList
    exact fogpair_units g pid hf
  have hpv := fogpair_pv g g' pid ((g.getPlayer pid).getD { id := pid, name := pid })
    hvis (hpe _) hf
  have hfog := fogpair_fog g g' pid hvis hf
  simp only [Game.getPlayerView]
  rw [← hgp, ← hturn, ← htr, ← hdiplo, ← hunits, hpv, hfog]

/-- C2 witness: the amended noninterference applied to the concrete fog
scenario, where the fogged province C changes terrain, owner, buildings and
foreign units between the two states. -/
theorem c2_witness :
    c2gA.getPlayerView "p0" = c2gC.getPlayerView "p0" :=
  c2_amended_fog_noninterference c2gA c2gC "p0"
    ⟨rfl, rfl, rfl, rfl, rfl, rfl, rfl,
     List.Forall₂.cons (by decide)
       (List.Forall₂.cons (by decide) List.Forall₂.nil)⟩

end Stratagem
